import Mathlib

/-!
Verification of the `sutu_blender_bridge` transport subsystem.

This development shallowly embeds the bridge's pure logic in Lean 4:

* `src/bridge/framing.py` — the length-prefixed wire framing codec
  (`encode_frame`, `FrameDecoder.push_bytes`);
* `src/bridge/msgpack_compat.py` — the pure MessagePack codec
  (`packb`, `unpackb`);
* `src/bridge/messages.py` — the control-message schema, builders and the
  three-shape normalizing decoder (`_normalize_control_message`);
* `src/bridge/client.py` — the reconnect backoff logic of
  `BridgeClient._worker_main`, the state-reset logic of `_set_state` /
  `disable_connection`, and the inflight-frame bookkeeping;
* `src/bridge/shm_ring.py` — the seqlock write protocol of the
  shared-memory ring (`write_slot`, `write_next`) and segment creation;
* `src/bridge/frame_sender.py` — `FrameSender.send_rgba_frame`.

Bytes are modelled as `List Nat` with every element below 256 by
construction.  Python `str` values are modelled by their UTF-8 byte
sequences (all protocol strings are ASCII).  Machine-integer truncation is
written with explicit `% 2 ^ w`.  Fallible Python code (raising exceptions)
is modelled with `Except`.
-/

/-! ## Byte-level helpers -/

/-- A byte string: a list of naturals, each `< 256` by construction. -/
abbrev Bytes := List Nat

/-- Big-endian encoding of `n` into `w` bytes
(Python `int.to_bytes(w, "big")` / `struct.pack(">…")`; `n < 256 ^ w`). -/
def beBytes : Nat → Nat → Bytes
  | 0, _ => []
  | w + 1, n => beBytes w (n / 256) ++ [n % 256]

/-- Big-endian value of a byte string
(Python `int.from_bytes(bs, "big")` / `struct.unpack(">…")`). -/
def beVal (bs : Bytes) : Nat :=
  bs.foldl (fun acc b => acc * 256 + b) 0

/-- Little-endian encoding of `n` into `w` bytes (Python `struct.pack("<…")`). -/
def leBytes : Nat → Nat → Bytes
  | 0, _ => []
  | w + 1, n => n % 256 :: leBytes w (n / 256)

theorem length_beBytes (w n : Nat) : (beBytes w n).length = w := by
  induction w generalizing n with
  | zero => rfl
  | succ w ih => simp [beBytes, ih]

theorem length_leBytes (w n : Nat) : (leBytes w n).length = w := by
  induction w generalizing n with
  | zero => rfl
  | succ w ih => simp [leBytes, ih]

theorem beVal_append (a b : Bytes) :
    beVal (a ++ b) = beVal a * 256 ^ b.length + beVal b := by
  induction b using List.reverseRecOn with
  | nil => simp [beVal]
  | append_singleton b x ih =>
      simp only [← List.append_assoc, beVal, List.foldl_append, List.foldl_cons,
        List.foldl_nil] at *
      rw [ih, List.length_append]
      simp [pow_succ]
      ring

theorem beVal_beBytes (w n : Nat) (h : n < 256 ^ w) : beVal (beBytes w n) = n := by
  induction w generalizing n with
  | zero =>
      simp [beBytes, beVal]
      omega
  | succ w ih =>
      have hdiv : n / 256 < 256 ^ w := by
        rw [Nat.div_lt_iff_lt_mul (by norm_num)]
        calc n < 256 ^ (w + 1) := h
        _ = 256 ^ w * 256 := by ring
      rw [beBytes, beVal_append, ih _ hdiv]
      simp [beVal]
      omega

/-- Reading `w` bytes from the front of a stream; fails when the stream is
too short (Python `_Reader.read`). -/
def readN (w : Nat) (bs : Bytes) : Except String (Bytes × Bytes) :=
  if bs.length < w then .error "MessagePack data truncated"
  else .ok (bs.take w, bs.drop w)

theorem readN_append (pre rest : Bytes) :
    readN pre.length (pre ++ rest) = .ok (pre, rest) := by
  simp [readN]

/-! ## Error model

`framing.py` raises `FrameError(code, message)` and `messages.py` raises
`BridgeProtocolError(code, message)`; both carry one of the `E_*` code
strings of `messages.py`.  The message text is elided. -/

/-- The error codes of `src/bridge/messages.py` that the embedded code
can attach to a raised error. -/
inductive BridgeErr where
  | protoMismatch   -- E_PROTO_MISMATCH
  | msgTooLarge     -- E_MSG_TOO_LARGE
  | overflow        -- Python OverflowError escaping from `int.to_bytes`
deriving DecidableEq, Repr

/-- `MAX_CONTROL_MESSAGE_BYTES` (`messages.py`). -/
def MAX_CONTROL_MESSAGE_BYTES : Nat := 1024 * 1024

/-- `MAX_BINARY_FRAME_BYTES` (`client.py`). -/
def MAX_BINARY_FRAME_BYTES : Nat := 128 * 1024 * 1024

/-! ## Wire framing (`src/bridge/framing.py`) -/

/-- `framing.encode_frame`: 4-byte big-endian length prefix followed by the
payload; `FrameError(E_MSG_TOO_LARGE)` when the payload exceeds
`max_payload_len`.  (`payload_len.to_bytes(4, "big")` additionally raises
`OverflowError` when the length does not fit in 4 bytes, which can only
happen when `max_payload_len ≥ 2^32`.) -/
def encode_frame (payload : Bytes) (max_payload_len : Nat) : Except BridgeErr Bytes :=
  if payload.length > max_payload_len then .error .msgTooLarge
  else if payload.length ≥ 2 ^ 32 then .error .overflow
  else .ok (beBytes 4 payload.length ++ payload)

/-- The state of `framing.FrameDecoder`: the configured limit and the
internal reassembly buffer. -/
structure FrameDecoder where
  max_payload_len : Nat
  buffer : Bytes
deriving DecidableEq, Repr

/-- A fresh `FrameDecoder(max_payload_len)`. -/
def FrameDecoder.mk0 (maxLen : Nat) : FrameDecoder := ⟨maxLen, []⟩

/-- The `while True` extraction loop of `FrameDecoder.push_bytes`: repeatedly
take a 4-byte big-endian length prefix and the corresponding body off the
front of `buf`, stopping on an incomplete frame and failing with
`E_MSG_TOO_LARGE` as soon as a declared length exceeds the limit. -/
def extractFrames (maxLen : Nat) (buf : Bytes) :
    Except BridgeErr (List Bytes × Bytes) :=
  if _h4 : buf.length < 4 then .ok ([], buf)
  else
    let payload_len := beVal (buf.take 4)
    if payload_len > maxLen then .error .msgTooLarge
    else if _hlen : buf.length < 4 + payload_len then .ok ([], buf)
    else
      match extractFrames maxLen (buf.drop (4 + payload_len)) with
      | .error e => .error e
      | .ok (fs, rest) => .ok ((buf.drop 4).take payload_len :: fs, rest)
termination_by buf.length
decreasing_by
  simp only [List.length_drop]
  omega

/-- `FrameDecoder.push_bytes`: an empty chunk is ignored; otherwise the chunk
is appended to the buffer and complete frames are extracted in order. -/
def FrameDecoder.push_bytes (d : FrameDecoder) (chunk : Bytes) :
    Except BridgeErr (List Bytes × FrameDecoder) :=
  if chunk = [] then .ok ([], d)
  else
    match extractFrames d.max_payload_len (d.buffer ++ chunk) with
    | .error e => .error e
    | .ok (fs, rest) => .ok (fs, ⟨d.max_payload_len, rest⟩)

/-- Pushing a list of chunks sequentially, concatenating all emitted
payload lists. -/
def FrameDecoder.pushAll (d : FrameDecoder) : List Bytes →
    Except BridgeErr (List Bytes × FrameDecoder)
  | [] => .ok ([], d)
  | c :: cs =>
    match d.push_bytes c with
    | .error e => .error e
    | .ok (fs, d') =>
      match d'.pushAll cs with
      | .error e => .error e
      | .ok (fs', d'') => .ok (fs ++ fs', d'')

/-! ### Framing lemmas -/

/-- One encoded frame: `u32BE length || payload`. -/
def frameBytes (p : Bytes) : Bytes := beBytes 4 p.length ++ p

/-- Concatenation of a sequence of encoded frames. -/
def framesBytes (ps : List Bytes) : Bytes := (ps.map frameBytes).flatten

/-- A buffer from which the extraction loop can take no complete frame:
either too short to hold a length prefix, or the declared frame is within
the limit but not fully buffered yet. -/
def Incomplete (maxLen : Nat) (r : Bytes) : Prop :=
  r.length < 4 ∨ (beVal (r.take 4) ≤ maxLen ∧ r.length < 4 + beVal (r.take 4))

/-- Prepend already-emitted frames to the outcome of a later extraction. -/
def okCons (fs : List Bytes) (e : Except BridgeErr (List Bytes × Bytes)) :
    Except BridgeErr (List Bytes × Bytes) :=
  match e with
  | .error er => .error er
  | .ok (fs', r) => .ok (fs ++ fs', r)


theorem extractFrames_incomplete (maxLen : Nat) (r : Bytes)
    (h : Incomplete maxLen r) : extractFrames maxLen r = .ok ([], r) := by
  rw [extractFrames]
  rcases h with h | ⟨hle, hlen⟩
  · simp [h]
  · by_cases h4 : r.length < 4
    · simp [h4]
    · simp [h4, Nat.not_lt_of_le hle, hlen]

theorem extractFrames_rest_aux (n maxLen : Nat) : ∀ (buf : Bytes),
    buf.length ≤ n → ∀ (fs : List Bytes) (rest : Bytes),
    extractFrames maxLen buf = .ok (fs, rest) → Incomplete maxLen rest := by
  induction n with
  | zero =>
      intro buf hlen fs rest h
      rw [extractFrames] at h
      have h4 : buf.length < 4 := by omega
      simp [h4] at h
      obtain ⟨-, hr⟩ := h
      subst hr
      exact Or.inl (by omega)
  | succ n ih =>
      intro buf hlen fs rest h
      rw [extractFrames] at h
      by_cases h4 : buf.length < 4
      · simp [h4] at h
        obtain ⟨-, hr⟩ := h
        subst hr
        exact Or.inl (by omega)
      · simp only [h4, dite_false] at h
        by_cases hbig : beVal (buf.take 4) > maxLen
        · simp [hbig] at h
        · by_cases hshort : buf.length < 4 + beVal (buf.take 4)
          · simp [hbig, hshort] at h
            obtain ⟨-, hr⟩ := h
            right
            constructor
            · rw [← hr]; omega
            · rw [← hr]; omega
          · simp only [hbig, if_false, hshort, dite_false] at h
            cases hrec : extractFrames maxLen (buf.drop (4 + beVal (buf.take 4))) with
            | error e => rw [hrec] at h; simp at h
            | ok pr =>
              rw [hrec] at h
              obtain ⟨fs', rest'⟩ := pr
              simp only [Except.ok.injEq, Prod.mk.injEq] at h
              obtain ⟨-, hrest⟩ := h
              subst hrest
              exact ih _ (by simp; omega) _ _ hrec

theorem extractFrames_rest (maxLen : Nat) (buf : Bytes) (fs : List Bytes)
    (rest : Bytes) (h : extractFrames maxLen buf = .ok (fs, rest)) :
    Incomplete maxLen rest :=
  extractFrames_rest_aux buf.length maxLen buf le_rfl fs rest h

theorem take_append_len (pre rest : Bytes) (w : Nat) (hw : pre.length = w) :
    (pre ++ rest).take w = pre := by
  subst hw
  simp

theorem drop_append_len (pre rest : Bytes) (w : Nat) (hw : pre.length = w) :
    (pre ++ rest).drop w = rest := by
  subst hw
  simp

theorem okCons_nil (e : Except BridgeErr (List Bytes × Bytes)) :
    okCons [] e = e := by
  cases e with
  | error er => rfl
  | ok pr => obtain ⟨a, b⟩ := pr; rfl

theorem extractFrames_append_aux (n maxLen : Nat) : ∀ (buf : Bytes),
    buf.length ≤ n → ∀ (c : Bytes) (fs : List Bytes) (r : Bytes),
    extractFrames maxLen buf = .ok (fs, r) →
    extractFrames maxLen (buf ++ c) = okCons fs (extractFrames maxLen (r ++ c)) := by
  induction n with
  | zero =>
      intro buf hlen c fs r h
      rw [extractFrames] at h
      have h4 : buf.length < 4 := by omega
      simp [h4] at h
      obtain ⟨hfs, hr⟩ := h
      subst hr
      subst hfs
      rw [okCons_nil]
  | succ n ih =>
      intro buf hlen c fs r h
      rw [extractFrames] at h
      by_cases h4 : buf.length < 4
      · simp [h4] at h
        obtain ⟨hfs, hr⟩ := h
        subst hr
        subst hfs
        rw [okCons_nil]
      · simp only [h4, dite_false] at h
        by_cases hbig : beVal (buf.take 4) > maxLen
        · simp [hbig] at h
        · by_cases hshort : buf.length < 4 + beVal (buf.take 4)
          · simp [hbig, hshort] at h
            obtain ⟨hfs, hr⟩ := h
            subst hr
            subst hfs
            rw [okCons_nil]
          · simp only [hbig, if_false, hshort, dite_false] at h
            have htake : (buf ++ c).take 4 = buf.take 4 := by
              rw [List.take_append_of_le_length (by omega)]
            have hdrop4 : (buf ++ c).drop 4 = buf.drop 4 ++ c := by
              rw [List.drop_append_of_le_length (by omega)]
            have hdropL : (buf ++ c).drop (4 + beVal (buf.take 4)) =
                buf.drop (4 + beVal (buf.take 4)) ++ c := by
              rw [List.drop_append_of_le_length (by omega)]
            cases hrec : extractFrames maxLen (buf.drop (4 + beVal (buf.take 4))) with
            | error e => rw [hrec] at h; simp at h
            | ok pr =>
              rw [hrec] at h
              obtain ⟨fs', rest'⟩ := pr
              simp only [Except.ok.injEq, Prod.mk.injEq] at h
              obtain ⟨hfs, hrest⟩ := h
              subst hrest
              subst hfs
              have hbody : ((buf ++ c).drop 4).take (beVal (buf.take 4)) =
                  (buf.drop 4).take (beVal (buf.take 4)) := by
                rw [hdrop4, List.take_append_of_le_length (by simp; omega)]
              rw [extractFrames]
              have h4' : ¬ (buf ++ c).length < 4 := by simp; omega
              simp only [h4', dite_false, htake, hbig, if_false, hdropL]
              have hshort' : ¬ (buf ++ c).length < 4 + beVal (buf.take 4) := by
                simp; omega
              simp only [hshort', dite_false]
              rw [ih _ (by simp; omega) c fs' rest' hrec]
              cases extractFrames maxLen (rest' ++ c) with
              | error e => simp [okCons]
              | ok pr' =>
                obtain ⟨fs'', r''⟩ := pr'
                simp [okCons, hbody]

theorem extractFrames_append (maxLen : Nat) (buf c : Bytes) (fs : List Bytes)
    (r : Bytes) (h : extractFrames maxLen buf = .ok (fs, r)) :
    extractFrames maxLen (buf ++ c) = okCons fs (extractFrames maxLen (r ++ c)) :=
  extractFrames_append_aux buf.length maxLen buf le_rfl c fs r h

theorem extractFrames_append_error_aux (n maxLen : Nat) : ∀ (buf : Bytes),
    buf.length ≤ n → ∀ (c : Bytes) (e : BridgeErr),
    extractFrames maxLen buf = .error e →
    extractFrames maxLen (buf ++ c) = .error e := by
  induction n with
  | zero =>
      intro buf hlen c e h
      rw [extractFrames] at h
      have h4 : buf.length < 4 := by omega
      simp [h4] at h
  | succ n ih =>
      intro buf hlen c e h
      rw [extractFrames] at h
      by_cases h4 : buf.length < 4
      · simp [h4] at h
      · simp only [h4, dite_false] at h
        have htake : (buf ++ c).take 4 = buf.take 4 := by
          rw [List.take_append_of_le_length (by omega)]
        have h4' : ¬ (buf ++ c).length < 4 := by simp; omega
        by_cases hbig : beVal (buf.take 4) > maxLen
        · simp only [hbig, if_true] at h
          rw [extractFrames]
          simp only [h4', dite_false, htake, hbig, if_true]
          simp at h
          simp [h]
        · by_cases hshort : buf.length < 4 + beVal (buf.take 4)
          · simp [hbig, hshort] at h
          · simp only [hbig, if_false, hshort, dite_false] at h
            have hdropL : (buf ++ c).drop (4 + beVal (buf.take 4)) =
                buf.drop (4 + beVal (buf.take 4)) ++ c := by
              rw [List.drop_append_of_le_length (by omega)]
            cases hrec : extractFrames maxLen (buf.drop (4 + beVal (buf.take 4))) with
            | error e' =>
              rw [hrec] at h
              simp only [Except.error.injEq] at h
              subst h
              rw [extractFrames]
              have hshort' : ¬ (buf ++ c).length < 4 + beVal (buf.take 4) := by
                simp; omega
              simp only [h4', dite_false, htake, hbig, if_false, hshort', hdropL]
              rw [ih _ (by simp; omega) c e' hrec]
            | ok pr => rw [hrec] at h; obtain ⟨a, b⟩ := pr; simp at h

theorem extractFrames_append_error (maxLen : Nat) (buf c : Bytes) (e : BridgeErr)
    (h : extractFrames maxLen buf = .error e) :
    extractFrames maxLen (buf ++ c) = .error e :=
  extractFrames_append_error_aux buf.length maxLen buf le_rfl c e h

theorem extractFrames_framesBytes (maxLen : Nat) (hmax : maxLen < 2 ^ 32)
    (ps : List Bytes) (hps : ∀ p ∈ ps, p.length ≤ maxLen) (r : Bytes)
    (hr : Incomplete maxLen r) :
    extractFrames maxLen (framesBytes ps ++ r) = .ok (ps, r) := by
  induction ps with
  | nil =>
      simpa [framesBytes] using extractFrames_incomplete maxLen r hr
  | cons p ps ih =>
      have hp : p.length ≤ maxLen := hps p (by simp)
      have hp32 : p.length < 2 ^ 32 := by omega
      have hlenval : beVal (beBytes 4 p.length) = p.length := by
        have : (256 : Nat) ^ 4 = 2 ^ 32 := by norm_num
        exact beVal_beBytes 4 p.length (by omega)
      have hframe : (frameBytes p).length = 4 + p.length := by
        simp [frameBytes, length_beBytes]
      have hbuf : framesBytes (p :: ps) ++ r =
          (beBytes 4 p.length ++ p) ++ (framesBytes ps ++ r) := by
        simp [framesBytes, frameBytes]
      rw [hbuf, extractFrames]
      have hlen4 : ¬ ((beBytes 4 p.length ++ p) ++ (framesBytes ps ++ r)).length < 4 := by
        simp [length_beBytes]
      have htake : (((beBytes 4 p.length ++ p) ++ (framesBytes ps ++ r)).take 4) =
          beBytes 4 p.length := by
        rw [List.append_assoc, take_append_len _ _ 4 (length_beBytes 4 p.length)]
      simp only [hlen4, dite_false, htake, hlenval]
      have hnotbig : ¬ p.length > maxLen := by omega
      have hnotshort : ¬ ((beBytes 4 p.length ++ p) ++ (framesBytes ps ++ r)).length <
          4 + p.length := by
        simp [length_beBytes]
      simp only [hnotbig, if_false, hnotshort, dite_false]
      have hdropfull : ((beBytes 4 p.length ++ p) ++ (framesBytes ps ++ r)).drop
          (4 + p.length) = framesBytes ps ++ r := by
        apply drop_append_len
        simp [length_beBytes]
      have hdrop4 : ((beBytes 4 p.length ++ p) ++ (framesBytes ps ++ r)).drop 4 =
          p ++ (framesBytes ps ++ r) := by
        rw [List.append_assoc]
        exact drop_append_len _ _ 4 (length_beBytes 4 p.length)
      rw [hdropfull, ih (fun q hq => hps q (by simp [hq]))]
      have hpay : ((beBytes 4 p.length ++ (p ++ (framesBytes ps ++ r))).drop 4).take
          p.length = p := by
        rw [drop_append_len _ _ 4 (length_beBytes 4 p.length),
          take_append_len p _ p.length rfl]
      simp [hpay]

theorem pushAll_extract (maxLen : Nat) (chunks : List Bytes) : ∀ (buf : Bytes),
    Incomplete maxLen buf →
    FrameDecoder.pushAll ⟨maxLen, buf⟩ chunks =
      match extractFrames maxLen (buf ++ chunks.flatten) with
      | .error e => .error e
      | .ok (fs, r) => .ok (fs, ⟨maxLen, r⟩) := by
  induction chunks with
  | nil =>
      intro buf hq
      simp [FrameDecoder.pushAll, extractFrames_incomplete maxLen buf hq]
  | cons c cs ih =>
      intro buf hq
      by_cases hc : c = []
      · subst hc
        rw [FrameDecoder.pushAll]
        simp only [FrameDecoder.push_bytes, if_true]
        rw [ih buf hq]
        simp
        cases extractFrames maxLen (buf ++ cs.flatten) with
        | error e => rfl
        | ok pr =>
            obtain ⟨fs, r⟩ := pr
            simp
      · rw [FrameDecoder.pushAll]
        simp only [FrameDecoder.push_bytes, hc, if_false]
        have hbufq : extractFrames maxLen buf = .ok ([], buf) :=
          extractFrames_incomplete maxLen buf hq
        cases hE : extractFrames maxLen (buf ++ c) with
        | error e =>
            have : extractFrames maxLen ((buf ++ c) ++ cs.flatten) = .error e :=
              extractFrames_append_error maxLen (buf ++ c) cs.flatten e hE
            simp only [List.flatten_cons, ← List.append_assoc, this]
        | ok pr =>
            obtain ⟨fs1, r1⟩ := pr
            have hr1 : Incomplete maxLen r1 :=
              extractFrames_rest maxLen (buf ++ c) fs1 r1 hE
            dsimp only
            rw [ih r1 hr1]
            have hcomp : extractFrames maxLen ((buf ++ c) ++ cs.flatten) =
                okCons fs1 (extractFrames maxLen (r1 ++ cs.flatten)) :=
              extractFrames_append maxLen (buf ++ c) cs.flatten fs1 r1 hE
            simp only [List.flatten_cons, ← List.append_assoc, hcomp]
            cases extractFrames maxLen (r1 ++ cs.flatten) with
            | error e => simp [okCons]
            | ok pr' =>
                obtain ⟨fs2, r2⟩ := pr'
                simp [okCons]

/-! ### Claim C2 -/

/-- C2: for every payload `p` with `len(p) ≤ maxLen`, pushing
`encode_frame(p)` into a fresh decoder in a single chunk emits exactly
`[p]` (leaving the buffer empty), and for every way of splitting the
concatenation of any sequence of encoded frames into chunks pushed
sequentially into `FrameDecoder.push_bytes`, the concatenation of all
emitted payload lists equals the original payload sequence, independent of
the chunk boundaries.  (`maxLen < 2^32` holds for both configured limits,
1 MiB and 128 MiB; beyond it Python `int.to_bytes(4, "big")` could not
represent the length prefix at all.) -/
theorem C2_framing_roundtrip (maxLen : Nat) (hmax : maxLen < 2 ^ 32)
    (ps : List Bytes) (hps : ∀ p ∈ ps, p.length ≤ maxLen)
    (chunks : List Bytes) (hsplit : chunks.flatten = framesBytes ps) :
    (∀ p : Bytes, p.length ≤ maxLen →
      encode_frame p maxLen = .ok (frameBytes p) ∧
      (FrameDecoder.mk0 maxLen).push_bytes (frameBytes p)
        = .ok ([p], FrameDecoder.mk0 maxLen)) ∧
    (FrameDecoder.mk0 maxLen).pushAll chunks = .ok (ps, FrameDecoder.mk0 maxLen) := by
  constructor
  · intro p hp
    constructor
    · simp [encode_frame, frameBytes, Nat.not_lt_of_le hp]
      omega
    · have hne : frameBytes p ≠ [] := by
        simp [frameBytes]
        intro hcontra
        have := congrArg List.length hcontra
        simp [length_beBytes] at this
      have hext : extractFrames maxLen (frameBytes p) = .ok ([p], []) := by
        have h1 : frameBytes p = framesBytes [p] ++ [] := by
          simp [framesBytes]
        rw [h1]
        exact extractFrames_framesBytes maxLen hmax [p]
          (by intro q hq; simp at hq; simpa [hq] using hp) []
          (Or.inl (by simp))
      simp [FrameDecoder.push_bytes, FrameDecoder.mk0, hne, hext]
  · have h0 : Incomplete maxLen [] := Or.inl (by simp)
    have := pushAll_extract maxLen chunks [] h0
    rw [FrameDecoder.mk0, this]
    simp [hsplit]
    rw [show framesBytes ps = framesBytes ps ++ [] by simp]
    rw [extractFrames_framesBytes maxLen hmax ps hps [] (Or.inl (by simp))]

/-- Witness for C2: the two frames `[1,2]` and `[3]` encoded and split into
three chunks that cut across both the length prefix and the frame bodies. -/
theorem C2_framing_roundtrip_witness :
    (FrameDecoder.mk0 8).pushAll [[0, 0], [0, 2, 1, 2, 0], [0, 0, 1, 3]]
      = .ok ([[1, 2], [3]], FrameDecoder.mk0 8) :=
  (C2_framing_roundtrip 8 (by norm_num) [[1, 2], [3]] (by decide)
    [[0, 0], [0, 2, 1, 2, 0], [0, 0, 1, 3]] (by decide)).2

/-! ### Claim C7 -/

/-- C7: `encode_frame(payload, maxLen)` fails with `MessageTooLarge`
(`E_MSG_TOO_LARGE`) for every payload longer than `maxLen` and otherwise
produces the 4-byte big-endian length prefix followed by the payload; and
`FrameDecoder.push_bytes` fails with `MessageTooLarge` as soon as a
declared length prefix exceeds the decoder's configured maximum, even when
the full frame body has not yet arrived (no lower bound on the buffered
body is assumed beyond the 4 prefix bytes themselves). -/
theorem C7_framing_size_limits :
    (∀ (p : Bytes) (maxLen : Nat), p.length > maxLen →
        encode_frame p maxLen = .error .msgTooLarge) ∧
    (∀ (p : Bytes) (maxLen : Nat), p.length ≤ maxLen → p.length < 2 ^ 32 →
        encode_frame p maxLen = .ok (beBytes 4 p.length ++ p)) ∧
    (∀ (d : FrameDecoder) (chunk : Bytes), chunk ≠ [] →
        4 ≤ (d.buffer ++ chunk).length →
        d.max_payload_len < beVal ((d.buffer ++ chunk).take 4) →
        d.push_bytes chunk = .error .msgTooLarge) := by
  refine ⟨?_, ?_, ?_⟩
  · intro p maxLen h
    simp [encode_frame, h]
  · intro p maxLen h h32
    simp [encode_frame, Nat.not_lt_of_le h]
    omega
  · intro d chunk hne hlen hbig
    rw [FrameDecoder.push_bytes]
    simp only [hne, if_false]
    rw [extractFrames]
    simp only [List.length_append] at hlen
    have h4 : ¬ d.buffer.length + chunk.length < 4 := by omega
    simp [h4, hbig]

/-- Witness for C7: an oversized payload is rejected, a fitting payload is
framed, and a declared length of 9 with no body at all already fails on a
decoder with limit 4. -/
theorem C7_framing_size_limits_witness :
    encode_frame [7, 7, 7] 2 = .error .msgTooLarge ∧
    encode_frame [1] 4 = .ok [0, 0, 0, 1, 1] ∧
    (FrameDecoder.mk 4 []).push_bytes [0, 0, 0, 9] = .error .msgTooLarge :=
  ⟨C7_framing_size_limits.1 [7, 7, 7] 2 (by decide),
   by rw [C7_framing_size_limits.2.1 [1] 4 (by decide) (by norm_num)]; rfl,
   C7_framing_size_limits.2.2 (FrameDecoder.mk 4 []) [0, 0, 0, 9] (by decide)
     (by decide) (by decide)⟩

/-! ## Connection manager (`src/bridge/client.py`) -/

/-- The transport tokens `BRIDGE_TRANSPORT_SHM` / `BRIDGE_TRANSPORT_TCP_LZ4`. -/
inductive Transport where
  | shm
  | tcp_lz4
deriving DecidableEq, Repr

/-- The five connection states of the `BridgeClient` state machine
(Python compares state name strings; an enum is equivalent). -/
inductive ConnState where
  | disabled
  | listening
  | handshaking
  | streaming
  | recovering
deriving DecidableEq, Repr

/-- `MAX_INFLIGHT_FRAMES` (`messages.py`). -/
def MAX_INFLIGHT_FRAMES : Nat := 3

/-- The `BridgeClient` fields guarded by `_state_lock` (socket/worker/queue
handles are process resources and are not part of this value model). -/
structure BridgeClientState where
  _state : ConnState
  _transport : Option Transport
  _degraded : Bool
  _session_counter : Int
  _active_session_id : Option Int
  _inflight_frame_ids : List Int
  _last_error : Option (String × String)   -- (code, message)
  _target_stream_width : Option Int
  _target_stream_height : Option Int
  _config_port : Int
  _config_enable_connection : Bool
deriving DecidableEq, Repr

/-- The freshly constructed `BridgeClient.__init__` state
(port 30121, connection disabled). -/
def BridgeClientState.init : BridgeClientState :=
  { _state := .disabled
    _transport := none
    _degraded := false
    _session_counter := 0
    _active_session_id := none
    _inflight_frame_ids := []
    _last_error := none
    _target_stream_width := none
    _target_stream_height := none
    _config_port := 30121
    _config_enable_connection := false }

/-- `BridgeClient._set_state`: store the new state and, when it is not
`streaming`, clear transport, degraded flag, session id, inflight ids and
the stream target-size hint (`client.py` lines 456-465). -/
def BridgeClientState.set_state (st : BridgeClientState) (s : ConnState) :
    BridgeClientState :=
  if s ≠ .streaming then
    { st with
      _state := s
      _transport := none
      _degraded := false
      _active_session_id := none
      _inflight_frame_ids := []
      _target_stream_width := none
      _target_stream_height := none }
  else { st with _state := s }

/-- `BridgeClient.disable_connection` (state mutation only; stopping the
worker thread is a scheduling effect outside this value model). -/
def BridgeClientState.disable_connection (st : BridgeClientState) :
    BridgeClientState :=
  { st with
    _config_enable_connection := false
    _state := .disabled
    _transport := none
    _degraded := false
    _active_session_id := none
    _inflight_frame_ids := []
    _target_stream_width := none
    _target_stream_height := none
    _last_error := none }

/-- `BridgeClient._register_inflight_frame`: over capacity, drop the oldest
pending id, then append the new one. -/
def BridgeClientState.register_inflight_frame (st : BridgeClientState)
    (frame_id : Int) : BridgeClientState :=
  let ids :=
    if st._inflight_frame_ids.length ≥ MAX_INFLIGHT_FRAMES then
      st._inflight_frame_ids.tail
    else st._inflight_frame_ids
  { st with _inflight_frame_ids := ids ++ [frame_id] }

/-- `deque.remove(x)` with the surrounding `try/except ValueError: pass`:
remove the first occurrence of `x`; leave the deque unchanged when `x` is
absent. -/
def removeFirst : List Int → Int → List Int
  | [], _ => []
  | x :: xs, y => if x = y then xs else x :: removeFirst xs y

/-- `BridgeClient._ack_inflight_frame`. -/
def BridgeClientState.ack_inflight_frame (st : BridgeClientState)
    (frame_id : Int) : BridgeClientState :=
  { st with _inflight_frame_ids := removeFirst st._inflight_frame_ids frame_id }

/-- The operations that touch the inflight set while streaming. -/
inductive InflightOp where
  | register (frame_id : Int)
  | ack (frame_id : Int)
deriving DecidableEq, Repr

def applyInflightOp (st : BridgeClientState) : InflightOp → BridgeClientState
  | .register fid => st.register_inflight_frame fid
  | .ack fid => st.ack_inflight_frame fid

/-! ### Reconnect backoff (`BridgeClient._worker_main`) -/

/-- `RECONNECT_BACKOFF_SEC = (0.5, 1.0, 2.0, 5.0)` (`client.py` line 47).
The four float values are exactly representable; they are modelled in `ℚ`. -/
def RECONNECT_BACKOFF_SEC : List ℚ := [1/2, 1, 2, 5]

/-- How one `_run_session` call ends, as seen by the `_worker_main` loop
(assuming the connection stays enabled and no stop was requested, the
scenario of the backoff claim).  `reachedStreaming` records whether the
session got to the `streaming` state before ending; the worker's control
flow never consults it — it reacts only to the kind of exception raised. -/
inductive SessionEnd where
  | normalReturn
    -- `_run_session` returned: only possible once the stop event is set,
    -- so `backoff_index = 0` runs and the loop then breaks.
  | errStopRequested
    -- `BridgeClientError(E_STOP_REQUESTED)`: the loop breaks.
  | errExpectedPeerClose (reachedStreaming : Bool)
    -- `_is_expected_peer_close_error`: fast reconnect, no delay, tier reset.
  | errOther (reachedStreaming : Bool)
    -- any other session-ending error: backoff delay, tier escalation.
deriving DecidableEq, Repr

/-- The sequence of backoff delays `_worker_main` sleeps between sessions,
given the current `backoff_index` and the endings of the successive
sessions:
`delay = RECONNECT_BACKOFF_SEC[min(backoff_index, len - 1)]` followed by
`backoff_index = min(backoff_index + 1, len - 1)`
(`client.py` lines 240-297). -/
def worker_delays : Nat → List SessionEnd → List ℚ
  | _, [] => []
  | _, .normalReturn :: _ => []
  | _, .errStopRequested :: _ => []
  | _, .errExpectedPeerClose _ :: rest => worker_delays 0 rest
  | idx, .errOther _ :: rest =>
      RECONNECT_BACKOFF_SEC.getD (min idx (RECONNECT_BACKOFF_SEC.length - 1)) 0
        :: worker_delays (min (idx + 1) (RECONNECT_BACKOFF_SEC.length - 1)) rest

theorem worker_delays_replicate (n idx : Nat) :
    worker_delays idx (List.replicate n (.errOther false)) =
      (List.range n).map
        (fun i => RECONNECT_BACKOFF_SEC.getD (min (idx + i) 3) 0) := by
  induction n generalizing idx with
  | zero => simp [worker_delays]
  | succ n ih =>
      rw [List.replicate_succ, worker_delays, ih]
      rw [List.range_succ_eq_map]
      simp only [List.map_cons, List.map_map]
      refine List.cons_eq_cons.mpr ⟨?_, ?_⟩
      · have : idx ⊓ (RECONNECT_BACKOFF_SEC.length - 1) = (idx + 0) ⊓ 3 := by
          simp [RECONNECT_BACKOFF_SEC]
        rw [this]
      · apply List.map_congr_left
        intro i _
        have : ((idx + 1) ⊓ (RECONNECT_BACKOFF_SEC.length - 1) + i) ⊓ 3 =
            (idx + (i + 1)) ⊓ 3 := by
          simp [RECONNECT_BACKOFF_SEC]
          omega
        simp [Function.comp, this]

/-! ### Claim C3 -/

/-- C3 counterexample: two consecutive failures, the second from a session
that did reach `streaming` (e.g. a heartbeat timeout after streaming).  The
claimed reset would give delays `[0.5, 0.5]`; `_worker_main` keeps
escalating and gives `[0.5, 1]`.  `backoff_index` is reset only when
`_run_session` returns normally (stop) or on the benign peer-close fast
reconnect — never merely because the session reached `streaming`. -/
theorem C3_counterexample :
    worker_delays 0 [.errOther false, .errOther true] = [1/2, 1] ∧
    worker_delays 0 [.errOther false, .errOther true] ≠ [1/2, 1/2] := by
  constructor
  · norm_num [worker_delays, RECONNECT_BACKOFF_SEC]
  · norm_num [worker_delays, RECONNECT_BACKOFF_SEC]

/-- C3 (amended): for consecutive failed connection attempts the reconnect
delays are exactly `0.5, 1, 2, 5, 5, 5, …`; whether a failed session had
reached `streaming` has no effect on the chosen delays; the tier is reset
to the first one only by the benign peer-close fast-reconnect path (or a
clean stop, which ends the loop). -/
theorem C3_amended_backoff :
    (∀ n : Nat, worker_delays 0 (List.replicate n (.errOther false)) =
      (List.range n).map
        (fun i => if i = 0 then (1/2 : ℚ) else if i = 1 then 1
          else if i = 2 then 2 else 5)) ∧
    (∀ (idx : Nat) (b : Bool) (rest : List SessionEnd),
      worker_delays idx (.errOther b :: rest) =
        worker_delays idx (.errOther true :: rest)) ∧
    (∀ (idx : Nat) (b : Bool) (rest : List SessionEnd),
      worker_delays idx (.errExpectedPeerClose b :: rest) = worker_delays 0 rest) := by
  refine ⟨?_, ?_, ?_⟩
  · intro n
    rw [worker_delays_replicate]
    apply List.map_congr_left
    intro i _
    match i with
    | 0 => norm_num [RECONNECT_BACKOFF_SEC]
    | 1 => norm_num [RECONNECT_BACKOFF_SEC]
    | 2 => norm_num [RECONNECT_BACKOFF_SEC]
    | (j + 3) =>
        have h3 : (0 + (j + 3)) ⊓ 3 = 3 := by omega
        have h1 : ¬ j + 3 = 1 := by omega
        have h2 : ¬ j + 3 = 2 := by omega
        simp only [h3, h1, h2]
        norm_num [RECONNECT_BACKOFF_SEC]
  · intro idx b rest
    rfl
  · intro idx b rest
    rfl

/-! ### Claim C5 -/

/-- A client state in the middle of a streaming session, with a recorded
last error. -/
def streamingClientExample : BridgeClientState :=
  { BridgeClientState.init with
    _state := .streaming
    _transport := some .tcp_lz4
    _degraded := false
    _active_session_id := some 1
    _inflight_frame_ids := [5, 6]
    _last_error := some ("E_HEARTBEAT_TIMEOUT", "heartbeat timeout")
    _target_stream_width := some 1920
    _target_stream_height := some 1080 }

/-- C5 counterexample: `_set_state` to `recovering` (exactly what the
worker does after a streaming session fails) clears transport, session id,
inflight ids and the target hint, but not the last error, which the claim
lists among the side state reset "whenever state leaves streaming". -/
theorem C5_counterexample :
    (streamingClientExample.set_state .recovering)._state = .recovering ∧
    (streamingClientExample.set_state .recovering)._last_error =
      some ("E_HEARTBEAT_TIMEOUT", "heartbeat timeout") ∧
    (streamingClientExample.set_state .recovering)._last_error ≠ none := by
  refine ⟨rfl, rfl, ?_⟩
  simp [BridgeClientState.set_state, streamingClientExample]

/-- C5 (amended): whenever `_set_state` moves the connection state to any
state other than `streaming`, the selected transport, degraded flag,
active session id, inflight frame ids and stream target-size hint are all
reset to empty as part of that transition, while the last error is left
unchanged; the last error (and everything else) is cleared by
`disable_connection`. -/
theorem C5_amended_state_reset (st : BridgeClientState) (s : ConnState)
    (h : s ≠ .streaming) :
    st.set_state s =
      { st with
        _state := s
        _transport := none
        _degraded := false
        _active_session_id := none
        _inflight_frame_ids := []
        _target_stream_width := none
        _target_stream_height := none } ∧
    (st.set_state s)._last_error = st._last_error ∧
    st.disable_connection =
      { st with
        _config_enable_connection := false
        _state := .disabled
        _transport := none
        _degraded := false
        _active_session_id := none
        _inflight_frame_ids := []
        _target_stream_width := none
        _target_stream_height := none
        _last_error := none } := by
  refine ⟨?_, ?_, rfl⟩
  · simp [BridgeClientState.set_state, h]
  · simp [BridgeClientState.set_state, h]

/-- Witness for C5 (amended) at the example streaming state and target
state `recovering`. -/
theorem C5_amended_state_reset_witness :
    streamingClientExample.set_state .recovering =
      { streamingClientExample with
        _state := .recovering
        _transport := none
        _degraded := false
        _active_session_id := none
        _inflight_frame_ids := []
        _target_stream_width := none
        _target_stream_height := none } ∧
    (streamingClientExample.set_state .recovering)._last_error =
      streamingClientExample._last_error :=
  ⟨(C5_amended_state_reset streamingClientExample .recovering (by decide)).1,
   (C5_amended_state_reset streamingClientExample .recovering (by decide)).2.1⟩

/-! ### Claim C6 -/

theorem length_removeFirst_le (l : List Int) (x : Int) :
    (removeFirst l x).length ≤ l.length := by
  induction l with
  | nil => simp [removeFirst]
  | cons a l ih =>
      rw [removeFirst]
      by_cases h : a = x
      · simp [h]
      · simp only [h, if_false, List.length_cons]
        omega

theorem inflight_le_max_step (st : BridgeClientState) (op : InflightOp)
    (h : st._inflight_frame_ids.length ≤ MAX_INFLIGHT_FRAMES) :
    (applyInflightOp st op)._inflight_frame_ids.length ≤ MAX_INFLIGHT_FRAMES := by
  obtain ⟨s1, s2, s3, s4, s5, s6, s7, s8, s9, s10, s11⟩ := st
  cases op with
  | register fid =>
      simp only [applyInflightOp, BridgeClientState.register_inflight_frame,
        MAX_INFLIGHT_FRAMES] at *
      split_ifs with hfull
      · simp only [List.length_append, List.length_tail, List.length_cons,
          List.length_nil]
        omega
      · simp only [List.length_append, List.length_cons, List.length_nil]
        omega
  | ack fid =>
      simp only [applyInflightOp, BridgeClientState.ack_inflight_frame] at *
      have := length_removeFirst_le s6 fid
      omega

/-- C6: the inflight frame-id set never exceeds `MAX_INFLIGHT_FRAMES = 3`
after any sequence of register/ack operations from the initial client
state; and registering a new id while 3 are pending drops exactly the
oldest and appends the new id, leaving the middle two ids in order. -/
theorem C6_inflight_capacity :
    (∀ ops : List InflightOp,
      ((ops.foldl applyInflightOp BridgeClientState.init)._inflight_frame_ids).length
        ≤ MAX_INFLIGHT_FRAMES) ∧
    (∀ (st : BridgeClientState) (a b c x : Int),
      st._inflight_frame_ids = [a, b, c] →
      (st.register_inflight_frame x)._inflight_frame_ids = [b, c, x]) := by
  constructor
  · have hgen : ∀ (ops : List InflightOp) (st : BridgeClientState),
        st._inflight_frame_ids.length ≤ MAX_INFLIGHT_FRAMES →
        ((ops.foldl applyInflightOp st)._inflight_frame_ids).length
          ≤ MAX_INFLIGHT_FRAMES := by
      intro ops
      induction ops with
      | nil => intro st h; exact h
      | cons op ops ih =>
          intro st h
          exact ih _ (inflight_le_max_step st op h)
    intro ops
    exact hgen ops BridgeClientState.init (by simp [BridgeClientState.init])
  · intro st a b c x h
    simp [BridgeClientState.register_inflight_frame, h, MAX_INFLIGHT_FRAMES]

/-- Witness for C6: registering ids 1..4 from the fresh client keeps the
set at capacity, and a 4th registration over `[1, 2, 3]` yields `[2, 3, 4]`. -/
theorem C6_inflight_capacity_witness :
    ((([InflightOp.register 1, .register 2, .register 3,
        .register 4]).foldl applyInflightOp
        BridgeClientState.init)._inflight_frame_ids).length
      ≤ MAX_INFLIGHT_FRAMES ∧
    (({ BridgeClientState.init with
        _inflight_frame_ids := [1, 2, 3] }).register_inflight_frame
        4)._inflight_frame_ids = [2, 3, 4] :=
  ⟨C6_inflight_capacity.1 [.register 1, .register 2, .register 3, .register 4],
   C6_inflight_capacity.2 { BridgeClientState.init with
      _inflight_frame_ids := [1, 2, 3] } 1 2 3 4 rfl⟩

/-! ### Claim C10 -/

theorem removeFirst_not_mem (l : List Int) (x : Int) (h : x ∉ l) :
    removeFirst l x = l := by
  induction l with
  | nil => rfl
  | cons a l ih =>
      rw [removeFirst]
      have ha : ¬ a = x := by
        intro hcontra
        exact h (by simp [hcontra])
      simp only [ha, if_false]
      rw [ih (by intro hm; exact h (by simp [hm]))]

/-- C10: receiving an acknowledgement for a frame id not currently in the
inflight set is a harmless no-op: `_ack_inflight_frame` (whose
`try/except ValueError: pass` swallows the `deque.remove` failure) leaves
the inflight set and every other client field unchanged. -/
theorem C10_ack_unknown_frame_noop (st : BridgeClientState) (frame_id : Int)
    (h : frame_id ∉ st._inflight_frame_ids) :
    st.ack_inflight_frame frame_id = st := by
  cases st
  simp only [BridgeClientState.ack_inflight_frame]
  rw [removeFirst_not_mem _ _ h]

/-- Witness for C10: acknowledging id 42 while only `[7, 8]` are pending
changes nothing. -/
theorem C10_ack_unknown_frame_noop_witness :
    ({ streamingClientExample with
        _inflight_frame_ids := [7, 8] }).ack_inflight_frame 42 =
      { streamingClientExample with _inflight_frame_ids := [7, 8] } :=
  C10_ack_unknown_frame_noop _ 42 (by decide)

/-! ## Shared-memory ring (`src/bridge/shm_ring.py`) -/

/-- `SHM_HEADER_BYTES`: `seq:u32, payloadLen:u32, frameId:u64, timestampMs:u64`. -/
def SHM_HEADER_BYTES : Nat := 24

/-- The Python exceptions raised by the ring / frame-sender code paths.
`bridgeClientError` models `BridgeClientError(code, message)` from
`client.py` (message elided); the other constructors are the built-in
exception classes. -/
inductive PyExc where
  | valueError          -- ValueError
  | indexError          -- IndexError
  | runtimeError        -- RuntimeError ("ring closed")
  | fileNotFoundError   -- FileNotFoundError
  | bridgeClientError (code : String)
  | frameError (code : String)  -- framing.FrameError(code, message)
deriving DecidableEq, Repr

/-- `shm_ring.default_ring_name(port, slot_size)` returns the string
`f"sutu_bridge_v2_{port}_{slot_size}"`, which is injective in the pair
`(port, slot_size)`; the name is therefore modelled by that pair. -/
def default_ring_name (port : Nat) (slot_size : Nat) : Nat × Nat :=
  (port, slot_size)

/-- The shared-memory segments existing in the OS, as segment name →
capacity in bytes.  (Only existence and capacity matter to the embedded
creation/attachment logic; segment contents are per-ring state below.) -/
abbrev ShmEnv := List ((Nat × Nat) × Nat)

def ShmEnv.lookupSize (env : ShmEnv) (name : Nat × Nat) : Option Nat :=
  (env.find? (fun e => e.1 = name)).map (·.2)

/-- `SharedMemoryRingLayout`. -/
structure SharedMemoryRingLayout where
  name : Nat × Nat
  slot_count : Nat
  slot_size : Nat
deriving DecidableEq, Repr

def SharedMemoryRingLayout.total_size (l : SharedMemoryRingLayout) : Nat :=
  l.slot_count * l.slot_size

/-- The state of one `SharedMemoryRing` object: its layout, ownership, the
round-robin cursor, the closed flag, the per-slot committed sequence
numbers (`_slot_seq`) and this process's view of the mapped bytes. -/
structure SharedMemoryRing where
  layout : SharedMemoryRingLayout
  _owner : Bool
  _next_slot : Nat
  _closed : Bool
  _slot_seq : List Nat
  mem : Bytes
deriving DecidableEq, Repr

def SharedMemoryRing.slot_count (r : SharedMemoryRing) : Nat :=
  r.layout.slot_count

def SharedMemoryRing.slot_size (r : SharedMemoryRing) : Nat :=
  r.layout.slot_size

/-- `payload_capacity = slot_size - SHM_HEADER_BYTES`. -/
def SharedMemoryRing.payload_capacity (r : SharedMemoryRing) : Nat :=
  r.slot_size - SHM_HEADER_BYTES

/-- `SharedMemoryRing.__init__`: validate the dimensions, then attempt an
exclusive create; on `FileExistsError` attach to the existing segment as a
non-owner and fail with `ValueError` when its capacity is below the
required total size (`shm_ring.py` lines 24-58).  Returns the ring and the
updated segment environment.  (A fresh POSIX segment is zero-filled; the
contents of a segment attached from another process are not observed by
any embedded operation.) -/
def SharedMemoryRing.init (env : ShmEnv) (name : Nat × Nat)
    (slot_count slot_size : Nat) (create : Bool) :
    Except PyExc (SharedMemoryRing × ShmEnv) :=
  if slot_count ≤ 0 then .error .valueError
  else if slot_size ≤ SHM_HEADER_BYTES then .error .valueError
  else
    let layout : SharedMemoryRingLayout :=
      { name := name, slot_count := slot_count, slot_size := slot_size }
    if create then
      match env.lookupSize name with
      | none =>
          .ok ({ layout := layout
                 _owner := true
                 _next_slot := 0
                 _closed := false
                 _slot_seq := List.replicate slot_count 0
                 mem := List.replicate layout.total_size 0 },
               (name, layout.total_size) :: env)
      | some existing_size =>
          if existing_size < layout.total_size then .error .valueError
          else
            .ok ({ layout := layout
                   _owner := false
                   _next_slot := 0
                   _closed := false
                   _slot_seq := List.replicate slot_count 0
                   mem := List.replicate existing_size 0 },
                 env)
    else
      match env.lookupSize name with
      | none => .error .fileNotFoundError
      | some existing_size =>
          .ok ({ layout := layout
                 _owner := false
                 _next_slot := 0
                 _closed := false
                 _slot_seq := List.replicate slot_count 0
                 mem := List.replicate existing_size 0 },
               env)

/-- Write `data` into `mem` at byte offset `off`
(`self._shm.buf[off : off + len(data)] = data`). -/
def storeAt (mem : Bytes) (off : Nat) (data : Bytes) : Bytes :=
  mem.take off ++ data ++ mem.drop (off + data.length)

/-- One primitive buffer store: `(byte offset, bytes written)`.  The write
trace of a slot write records these in program order, which is what the
seqlock ordering claim is about. -/
abbrev WriteTrace := List (Nat × Bytes)

/-- `SharedMemoryRing.write_slot` (`shm_ring.py` lines 80-109).  `&
_U32_MAX` is written as `% 2^32` and `& 0xFFFFFFFFFFFFFFFF` as `% 2^64`;
`int(frame_id) & mask` on a negative Python int is its two's complement,
i.e. `Int.emod` by `2^64`.  Returns the updated ring, the ordered write
trace and the returned slot index. -/
def SharedMemoryRing.write_slot (r : SharedMemoryRing) (slot_index : Int)
    (payload : Bytes) (frame_id : Int) (timestamp_ms : Int) :
    Except PyExc (SharedMemoryRing × WriteTrace × Nat) :=
  if r._closed then .error .runtimeError
  else if slot_index < 0 ∨ slot_index ≥ (r.slot_count : Int) then .error .indexError
  else
    let i := slot_index.toNat
    let payload_len := payload.length
    if payload_len > r.payload_capacity then .error .valueError
    else
      let offset := i * r.slot_size
      let committed0 := (r._slot_seq.getD i 0) % 2 ^ 32
      let committed :=
        if committed0 % 2 = 1 then (committed0 + 1) % 2 ^ 32 else committed0
      let writing_seq := (committed + 1) % 2 ^ 32
      let next_committed_seq := (committed + 2) % 2 ^ 32
      let trace : WriteTrace :=
        [(offset, leBytes 4 writing_seq),
         (offset + 4, leBytes 4 (payload_len % 2 ^ 32)),
         (offset + 8, leBytes 8 (frame_id % 2 ^ 64).toNat),
         (offset + 16, leBytes 8 (timestamp_ms % 2 ^ 64).toNat),
         (offset + SHM_HEADER_BYTES, payload),
         (offset, leBytes 4 next_committed_seq)]
      let mem' := trace.foldl (fun m op => storeAt m op.1 op.2) r.mem
      .ok ({ r with
              mem := mem'
              _slot_seq := r._slot_seq.set i next_committed_seq },
           trace, i)

/-- `SharedMemoryRing.write_next` (`shm_ring.py` lines 111-116): take the
round-robin cursor under the local lock, advance it modulo the slot
count, and delegate to `write_slot`. -/
def SharedMemoryRing.write_next (r : SharedMemoryRing) (payload : Bytes)
    (frame_id : Int) (timestamp_ms : Int) :
    Except PyExc (SharedMemoryRing × WriteTrace × Nat) :=
  if r._closed then .error .runtimeError
  else
    let slot_index := r._next_slot
    let r' := { r with _next_slot := (r._next_slot + 1) % r.slot_count }
    r'.write_slot (slot_index : Int) payload frame_id timestamp_ms

/-- `SharedMemoryRing.close(unlink)`: mark closed; the owner additionally
releases the segment from the environment. -/
def SharedMemoryRing.close (r : SharedMemoryRing) (env : ShmEnv)
    (unlink : Bool) : SharedMemoryRing × ShmEnv :=
  if r._closed then (r, env)
  else
    ({ r with _closed := true },
     if unlink ∧ r._owner then env.filter (fun e => ¬ e.1 = r.layout.name)
     else env)

/-- Iterated `write_next`, collecting the returned slot indices. -/
def SharedMemoryRing.write_next_seq (r : SharedMemoryRing) :
    List (Bytes × Int × Int) → Except PyExc (SharedMemoryRing × List Nat)
  | [] => .ok (r, [])
  | (payload, fid, ts) :: rest =>
    match r.write_next payload fid ts with
    | .error e => .error e
    | .ok (r', _, slot) =>
      match r'.write_next_seq rest with
      | .error e => .error e
      | .ok (r'', slots) => .ok (r'', slot :: slots)

/-! ### Claim C4 -/

theorem getD_set_self (l : List Nat) (i : Nat) (v d : Nat) (h : i < l.length) :
    (l.set i v).getD i d = v := by
  induction l generalizing i with
  | nil => simp at h
  | cons a l ih =>
      cases i with
      | zero => simp [List.set, List.getD]
      | succ i =>
          simp only [List.set, List.getD_cons_succ]
          exact ih i (by simpa using h)

theorem init_ok_fields (env : ShmEnv) (name : Nat × Nat) (k s : Nat)
    (c : Bool) (r : SharedMemoryRing) (env' : ShmEnv)
    (h : SharedMemoryRing.init env name k s c = .ok (r, env')) :
    r._closed = false ∧ r._next_slot = 0 ∧ r.slot_count = k ∧
    r.slot_size = s ∧ 0 < k ∧ SHM_HEADER_BYTES < s := by
  rw [SharedMemoryRing.init] at h
  by_cases h1 : k ≤ 0
  · simp [h1] at h
  · simp only [h1, if_false] at h
    by_cases h2 : s ≤ SHM_HEADER_BYTES
    · simp [h2] at h
    · simp only [h2, if_false] at h
      cases c with
      | true =>
          simp only [if_true] at h
          cases henv : env.lookupSize name with
          | none =>
              rw [henv] at h
              simp only [Except.ok.injEq, Prod.mk.injEq] at h
              obtain ⟨hr, -⟩ := h
              subst hr
              simp [SharedMemoryRing.slot_count, SharedMemoryRing.slot_size]
              omega
          | some existing =>
              rw [henv] at h
              by_cases h3 : existing < k * s
              · simp [SharedMemoryRingLayout.total_size, h3] at h
              · simp only [SharedMemoryRingLayout.total_size, h3, if_false,
                  Except.ok.injEq, Prod.mk.injEq] at h
                obtain ⟨hr, -⟩ := h
                subst hr
                simp [SharedMemoryRing.slot_count, SharedMemoryRing.slot_size]
                omega
      | false =>
          simp only [Bool.false_eq_true, if_false] at h
          cases henv : env.lookupSize name with
          | none => rw [henv] at h; simp at h
          | some existing =>
              rw [henv] at h
              simp only [Except.ok.injEq, Prod.mk.injEq] at h
              obtain ⟨hr, -⟩ := h
              subst hr
              simp [SharedMemoryRing.slot_count, SharedMemoryRing.slot_size]
              omega

theorem write_slot_ok (r : SharedMemoryRing) (i : Nat) (payload : Bytes)
    (fid ts : Int) (hclosed : r._closed = false) (hi : i < r.slot_count)
    (hfit : payload.length ≤ r.payload_capacity) :
    ∃ tr, r.write_slot (i : Int) payload fid ts =
      .ok ({ r with
              mem := tr.foldl (fun m op => storeAt m op.1 op.2) r.mem
              _slot_seq := r._slot_seq.set i
                (((if (r._slot_seq.getD i 0) % 2 ^ 32 % 2 = 1 then
                    ((r._slot_seq.getD i 0) % 2 ^ 32 + 1) % 2 ^ 32
                  else (r._slot_seq.getD i 0) % 2 ^ 32) + 2) % 2 ^ 32) },
            tr, i) := by
  rw [SharedMemoryRing.write_slot]
  have hb : ¬ ((i : Int) < 0 ∨ (i : Int) ≥ (r.slot_count : Int)) := by
    push_neg
    constructor
    · exact Int.ofNat_nonneg i
    · exact_mod_cast hi
  simp only [hclosed, Bool.false_eq_true, if_false, hb, Int.toNat_natCast,
    Nat.not_lt_of_le hfit]
  exact ⟨_, rfl⟩

theorem write_slot_ok_fields (r : SharedMemoryRing) (i : Nat) (payload : Bytes)
    (fid ts : Int) (hclosed : r._closed = false) (hi : i < r.slot_count)
    (hfit : payload.length ≤ r.payload_capacity) :
    ∃ r2 tr, r.write_slot (i : Int) payload fid ts = .ok (r2, tr, i) ∧
      r2.layout = r.layout ∧ r2._closed = r._closed ∧
      r2._next_slot = r._next_slot := by
  obtain ⟨tr, h⟩ := write_slot_ok r i payload fid ts hclosed hi hfit
  exact ⟨_, tr, h, rfl, rfl, rfl⟩

theorem write_next_seq_slots (writes : List (Bytes × Int × Int)) :
    ∀ (r : SharedMemoryRing), r._closed = false →
    r._next_slot < r.slot_count →
    (∀ w ∈ writes, (w.1 : Bytes).length ≤ r.payload_capacity) →
    ∃ r', r.write_next_seq writes =
      .ok (r', (List.range writes.length).map
        (fun i => (r._next_slot + i) % r.slot_count)) := by
  induction writes with
  | nil =>
      intro r _ _ _
      exact ⟨r, by simp [SharedMemoryRing.write_next_seq]⟩
  | cons w rest ih =>
      obtain ⟨payload, fid, ts⟩ := w
      intro r hclosed hnext hfit
      have hkpos : 0 < r.slot_count := by omega
      have hwn : r.write_next payload fid ts =
          SharedMemoryRing.write_slot
            { r with _next_slot := (r._next_slot + 1) % r.slot_count }
            (r._next_slot : Int) payload fid ts := by
        rw [SharedMemoryRing.write_next, if_neg (by simp [hclosed])]
      obtain ⟨r2, tr, hws, hlay, hcl, hns⟩ := write_slot_ok_fields
        { r with _next_slot := (r._next_slot + 1) % r.slot_count }
        r._next_slot payload fid ts hclosed hnext
        (hfit (payload, fid, ts) (by simp))
      have h2closed : r2._closed = false := by rw [hcl]; exact hclosed
      have h2count : r2.slot_count = r.slot_count := by
        show r2.layout.slot_count = r.layout.slot_count
        rw [hlay]
      have h2next : r2._next_slot < r2.slot_count := by
        rw [hns, h2count]
        exact Nat.mod_lt _ hkpos
      have h2cap : r2.payload_capacity = r.payload_capacity := by
        show r2.layout.slot_size - SHM_HEADER_BYTES = _
        rw [hlay]
        rfl
      have h2fit : ∀ w ∈ rest, (w.1 : Bytes).length ≤ r2.payload_capacity := by
        intro w hw
        rw [h2cap]
        exact hfit w (by simp [hw])
      obtain ⟨r', hrest⟩ := ih r2 h2closed h2next h2fit
      rw [SharedMemoryRing.write_next_seq, hwn, hws]
      dsimp only
      rw [hrest]
      refine ⟨r', ?_⟩
      simp only [List.length_cons, List.range_succ_eq_map, List.map_cons,
        List.map_map, Except.ok.injEq, Prod.mk.injEq, true_and]
      refine List.cons_eq_cons.mpr ⟨?_, ?_⟩
      · rw [Nat.add_zero, Nat.mod_eq_of_lt hnext]
      · apply List.map_congr_left
        intro i _
        simp only [Function.comp, hns, h2count, Nat.mod_add_mod]
        have hnsv : r2._next_slot = (r._next_slot + 1) % r.slot_count := hns
        congr 1
        omega

theorem write_slot_even_spec (r : SharedMemoryRing) (i : Nat) (payload : Bytes)
    (fid ts : Int) (r' : SharedMemoryRing) (tr : WriteTrace) (slot : Nat)
    (s : Nat) (hs : r._slot_seq.getD i 0 = s) (heven : s % 2 = 0)
    (hlt : s < 2 ^ 32) (hseqlen : r._slot_seq.length = r.slot_count)
    (h : r.write_slot (i : Int) payload fid ts = .ok (r', tr, slot)) :
    tr = [(i * r.slot_size, leBytes 4 (s + 1)),
          (i * r.slot_size + 4, leBytes 4 (payload.length % 2 ^ 32)),
          (i * r.slot_size + 8, leBytes 8 (fid % 2 ^ 64).toNat),
          (i * r.slot_size + 16, leBytes 8 (ts % 2 ^ 64).toNat),
          (i * r.slot_size + SHM_HEADER_BYTES, payload),
          (i * r.slot_size, leBytes 4 ((s + 2) % 2 ^ 32))] ∧
    (s + 1) % 2 = 1 ∧ ((s + 2) % 2 ^ 32) % 2 = 0 ∧
    slot = i ∧
    r'._slot_seq.getD i 0 = (s + 2) % 2 ^ 32 ∧
    (s + 2 < 2 ^ 32 →
      tr.getLast? = some (i * r.slot_size, leBytes 4 (s + 2)) ∧
      r'._slot_seq.getD i 0 = s + 2) := by
  rw [SharedMemoryRing.write_slot] at h
  simp only [Int.toNat_natCast] at h
  have hmod : s % 2 ^ 32 = s := Nat.mod_eq_of_lt hlt
  have hcondF : ¬ (s % 2 ^ 32 % 2 = 1) := by omega
  simp only [hs, hcondF, if_false] at h
  simp only [hmod] at h
  split_ifs at h with hcl hbd hft
  simp only [Except.ok.injEq, Prod.mk.injEq] at h
  obtain ⟨hr', htr, hslot⟩ := h
  have hiLT : i < r.slot_count := by
    push_neg at hbd
    exact_mod_cast hbd.2
  have hwr : (s + 1) % 2 ^ 32 = s + 1 := by
    apply Nat.mod_eq_of_lt
    omega
  refine ⟨?_, by omega, by omega, hslot.symm, ?_, ?_⟩
  · rw [← htr, hwr]
  · rw [← hr']
    dsimp only
    exact getD_set_self _ _ _ _ (by rw [hseqlen]; exact hiLT)
  · intro hnow
    have h2 : (s + 2) % 2 ^ 32 = s + 2 := Nat.mod_eq_of_lt hnow
    constructor
    · rw [← htr, h2]
      rfl
    · rw [← hr']
      dsimp only
      rw [getD_set_self _ _ _ _ (by rw [hseqlen]; exact hiLT), h2]

/-- C4: on a freshly created ring of `k` slots, the `i`-th `write_next`
(0-indexed) is placed in slot `i mod k`; and a `write_slot` call starting
from an even committed sequence value `s` (a `u32`, hence `s < 2^32`)
emits its buffer stores in exactly the order header-seq `s+1` (odd),
payload length, frame id, timestamp, payload bytes, header-seq
`(s+2) mod 2^32` (even, and literally `s+2` whenever it fits in a `u32`),
so the slot's stored sequence is even again after the write. -/
theorem C4_ring_round_robin_seqlock :
    (∀ (env : ShmEnv) (name : Nat × Nat) (k sz : Nat) (r : SharedMemoryRing)
       (env' : ShmEnv) (writes : List (Bytes × Int × Int)),
      SharedMemoryRing.init env name k sz true = .ok (r, env') →
      (∀ w ∈ writes, (w.1 : Bytes).length ≤ sz - SHM_HEADER_BYTES) →
      ∃ r', r.write_next_seq writes =
        .ok (r', (List.range writes.length).map (fun i => i % k))) ∧
    (∀ (r : SharedMemoryRing) (i : Nat) (payload : Bytes) (fid ts : Int)
       (r' : SharedMemoryRing) (tr : WriteTrace) (slot : Nat) (s : Nat),
      r._slot_seq.getD i 0 = s → s % 2 = 0 → s < 2 ^ 32 →
      r._slot_seq.length = r.slot_count →
      r.write_slot (i : Int) payload fid ts = .ok (r', tr, slot) →
      tr = [(i * r.slot_size, leBytes 4 (s + 1)),
            (i * r.slot_size + 4, leBytes 4 (payload.length % 2 ^ 32)),
            (i * r.slot_size + 8, leBytes 8 (fid % 2 ^ 64).toNat),
            (i * r.slot_size + 16, leBytes 8 (ts % 2 ^ 64).toNat),
            (i * r.slot_size + SHM_HEADER_BYTES, payload),
            (i * r.slot_size, leBytes 4 ((s + 2) % 2 ^ 32))] ∧
      (s + 1) % 2 = 1 ∧ ((s + 2) % 2 ^ 32) % 2 = 0 ∧
      slot = i ∧
      r'._slot_seq.getD i 0 = (s + 2) % 2 ^ 32 ∧
      (s + 2 < 2 ^ 32 →
        tr.getLast? = some (i * r.slot_size, leBytes 4 (s + 2)) ∧
        r'._slot_seq.getD i 0 = s + 2)) := by
  constructor
  · intro env name k sz r env' writes hinit hfit
    obtain ⟨hclosed, hnext, hcount, hsize, hk, hhdr⟩ :=
      init_ok_fields env name k sz true r env' hinit
    have hfit' : ∀ w ∈ writes, (w.1 : Bytes).length ≤ r.payload_capacity := by
      intro w hw
      have : r.payload_capacity = sz - SHM_HEADER_BYTES := by
        rw [SharedMemoryRing.payload_capacity, hsize]
      rw [this]
      exact hfit w hw
    obtain ⟨r', h⟩ := write_next_seq_slots writes r hclosed
      (by rw [hnext, hcount]; exact hk) hfit'
    refine ⟨r', ?_⟩
    rw [h]
    have hfun : (fun i => (r._next_slot + i) % r.slot_count) =
        (fun i : Nat => i % k) := by
      funext i
      rw [hnext, hcount, Nat.zero_add]
    rw [hfun]
  · intro r i payload fid ts r' tr slot s hs heven hlt hseqlen h
    exact write_slot_even_spec r i payload fid ts r' tr slot s hs heven hlt
      hseqlen h

/-- A two-slot ring as created by
`SharedMemoryRing.init [] (30121, 30) 2 30 true`. -/
def c4ExampleRing : SharedMemoryRing :=
  { layout := { name := (30121, 30), slot_count := 2, slot_size := 30 }
    _owner := true
    _next_slot := 0
    _closed := false
    _slot_seq := List.replicate 2 0
    mem := List.replicate 60 0 }

/-- Witness for C4: three `write_next` calls on a fresh two-slot ring land
in slots `0, 1, 0`, and a `write_slot` from committed seq 0 writes header
seq 1 first, header seq 2 last, and stores the even seq 2. -/
theorem C4_ring_round_robin_seqlock_witness :
    (∃ r', c4ExampleRing.write_next_seq [([1, 2, 3], 1, 0), ([4], 2, 0), ([5], 3, 0)]
        = .ok (r', [0, 1, 0])) ∧
    (∃ r' tr slot,
      c4ExampleRing.write_slot ((0 : Nat) : Int) [9, 9] 7 5 = .ok (r', tr, slot) ∧
      tr = [(0, leBytes 4 1),
            (4, leBytes 4 ([9, 9].length % 2 ^ 32)),
            (8, leBytes 8 ((7 : Int) % 2 ^ 64).toNat),
            (16, leBytes 8 ((5 : Int) % 2 ^ 64).toNat),
            (24, ([9, 9] : Bytes)),
            (0, leBytes 4 ((0 + 2) % 2 ^ 32))] ∧
      slot = 0 ∧ r'._slot_seq.getD 0 0 = 2) := by
  constructor
  · obtain ⟨r', h⟩ := C4_ring_round_robin_seqlock.1 [] (30121, 30) 2 30
      c4ExampleRing [((30121, 30), 60)]
      [([1, 2, 3], 1, 0), ([4], 2, 0), ([5], 3, 0)] rfl (by decide)
    exact ⟨r', h⟩
  · obtain ⟨tr, hw⟩ := write_slot_ok c4ExampleRing 0 [9, 9] 7 5 rfl
      (by decide) (by decide)
    obtain ⟨htr, -, -, hslot, hseq, -⟩ :=
      C4_ring_round_robin_seqlock.2 c4ExampleRing 0 [9, 9] 7 5 _ tr _ 0
        rfl rfl (by norm_num) rfl hw
    refine ⟨_, tr, _, hw, ?_, hslot, ?_⟩
    · rw [htr]
      rfl
    · rw [hseq]
      rfl

/-! ### Claim C8 -/

/-- The failure the spec prescribes for an undersized existing segment:
a bridge error tagged with the `E_SHM_ATTACH_FAIL` code defined in
`messages.py` (`ShmAttachFailed` in the spec's error taxonomy). -/
def shmAttachFailedError : PyExc := .bridgeClientError "E_SHM_ATTACH_FAIL"

/-- C8 counterexample: attaching to an existing 10-byte segment while 60
bytes are required fails with a plain Python `ValueError`; nothing attaches
the `E_SHM_ATTACH_FAIL` code to this failure (the constant is defined in
`messages.py` but never raised anywhere in the repository, and the worker
loop's catch-all even resurfaces the `ValueError` as `E_SOCKET_IO`). -/
theorem C8_counterexample :
    SharedMemoryRing.init [((30121, 30), 10)] (30121, 30) 2 30 true
      = .error .valueError ∧
    (Except.error .valueError :
        Except PyExc (SharedMemoryRing × ShmEnv))
      ≠ .error shmAttachFailedError := by
  constructor
  · rfl
  · intro h
    simp [shmAttachFailedError] at h

/-- C8 (amended): `SharedMemoryRing.__init__` attempts an exclusive create
first — when no segment of that name exists it creates one of the required
total size and becomes its owner; on a name collision it attaches to the
existing segment as a non-owner (creating nothing) after verifying its
capacity is at least the required total size, and fails with a plain
`ValueError` — not an error carrying the `E_SHM_ATTACH_FAIL` code — when
the existing segment's capacity is smaller than required. -/
theorem C8_amended_create_attach (env : ShmEnv) (name : Nat × Nat)
    (k sz : Nat) (hk : 0 < k) (hsz : SHM_HEADER_BYTES < sz) :
    (env.lookupSize name = none →
      ∃ r env', SharedMemoryRing.init env name k sz true = .ok (r, env') ∧
        r._owner = true ∧ env'.lookupSize name = some (k * sz)) ∧
    (∀ existing, env.lookupSize name = some existing → k * sz ≤ existing →
      ∃ r, SharedMemoryRing.init env name k sz true = .ok (r, env) ∧
        r._owner = false) ∧
    (∀ existing, env.lookupSize name = some existing → existing < k * sz →
      SharedMemoryRing.init env name k sz true = .error .valueError ∧
      SharedMemoryRing.init env name k sz true ≠ .error shmAttachFailedError) := by
  have h1 : ¬ k ≤ 0 := by omega
  have h2 : ¬ sz ≤ SHM_HEADER_BYTES := by omega
  refine ⟨?_, ?_, ?_⟩
  · intro hnone
    rw [SharedMemoryRing.init]
    simp only [h1, if_false, h2, if_true, hnone]
    refine ⟨_, _, rfl, rfl, ?_⟩
    simp [ShmEnv.lookupSize, List.find?, SharedMemoryRingLayout.total_size]
  · intro existing hsome hcap
    rw [SharedMemoryRing.init]
    simp only [h1, if_false, h2, if_true, hsome]
    rw [if_neg (by simp [SharedMemoryRingLayout.total_size]; omega)]
    exact ⟨_, rfl, rfl⟩
  · intro existing hsome hsmall
    rw [SharedMemoryRing.init]
    simp only [h1, if_false, h2, if_true, hsome]
    rw [if_pos (by simp [SharedMemoryRingLayout.total_size]; omega)]
    exact ⟨rfl, by intro h; simp [shmAttachFailedError] at h⟩

/-- Witness for C8 (amended): create into an empty environment, attach to a
big-enough existing segment, and fail on a too-small one. -/
theorem C8_amended_create_attach_witness :
    (∃ r env', SharedMemoryRing.init [] (30121, 30) 2 30 true = .ok (r, env') ∧
      r._owner = true ∧ env'.lookupSize (30121, 30) = some 60) ∧
    (∃ r, SharedMemoryRing.init [((30121, 30), 100)] (30121, 30) 2 30 true
        = .ok (r, [((30121, 30), 100)]) ∧ r._owner = false) ∧
    SharedMemoryRing.init [((30121, 30), 10)] (30121, 30) 2 30 true
      = .error .valueError := by
  refine ⟨?_, ?_, ?_⟩
  · exact (C8_amended_create_attach [] (30121, 30) 2 30 (by decide)
      (by decide)).1 rfl
  · exact (C8_amended_create_attach [((30121, 30), 100)] (30121, 30) 2 30
      (by decide) (by decide)).2.1 100 rfl (by decide)
  · exact ((C8_amended_create_attach [((30121, 30), 10)] (30121, 30) 2 30
      (by decide) (by decide)).2.2 10 rfl (by decide)).1

/-! ## MessagePack codec (`src/bridge/msgpack_compat.py`)

`messages.py` uses the `msgpack` package when importable and otherwise the
in-repo `msgpack_compat`; the embedded codec is the in-repo one (the two
agree on the subset the schema uses).  Python values are modelled by `MP`:
`str` carries its UTF-8 bytes (`encode("utf-8")` / `decode("utf-8")` are
mutually inverse on text, so the byte sequence determines the string), and
a float carries its raw IEEE-754 bits, never re-interpreted.  `float32` is
a value decoded from marker `0xca`; Python widens it to a 64-bit float,
which the bit-level model keeps abstract (and never re-encodes). -/

inductive MP where
  | nil
  | bool (b : Bool)
  | int (n : Int)
  | float64 (bits : Nat)
  | float32 (bits : Nat)
  | str (s : Bytes)
  | bin (b : Bytes)
  | arr (xs : List MP)
  | map (kvs : List (MP × MP))

/-! Python `==` on the values MessagePack decoding can produce, as used for
dictionary keys.  (The numeric cross-type equalities of Python, such as
`1 == 1.0` and `True == 1`, are not modelled: every key of this protocol
is a string.) -/
mutual
def mpBeq : MP → MP → Bool
  | .nil, .nil => true
  | .bool a, .bool b => a == b
  | .int a, .int b => a == b
  | .float64 a, .float64 b => a == b
  | .float32 a, .float32 b => a == b
  | .str a, .str b => a == b
  | .bin a, .bin b => a == b
  | .arr a, .arr b => mpBeqList a b
  | .map a, .map b => mpBeqPairs a b
  | _, _ => false
def mpBeqList : List MP → List MP → Bool
  | [], [] => true
  | a :: as_, b :: bs_ => mpBeq a b && mpBeqList as_ bs_
  | _, _ => false
def mpBeqPairs : List (MP × MP) → List (MP × MP) → Bool
  | [], [] => true
  | (ka, va) :: as_, (kb, vb) :: bs_ =>
      mpBeq ka kb && mpBeq va vb && mpBeqPairs as_ bs_
  | _, _ => false
end

/-- The exceptions `packb` can raise (`OverflowError` for out-of-range
numbers/lengths; `TypeError` for unsupported values — unreachable from
`MP` except for the phantom `float32`). -/
inductive MpPackErr where
  | overflowError
  | typeError
deriving DecidableEq, Repr

/-- `msgpack_compat._encode_int`, branch for branch. -/
def _encode_int (v : Int) : Except MpPackErr Bytes :=
  if 0 ≤ v ∧ v ≤ 0x7F then .ok [v.toNat]
  else if -32 ≤ v ∧ v < 0 then .ok [(v + 256).toNat]
  else if 0 ≤ v ∧ v ≤ 0xFF then .ok (0xcc :: beBytes 1 v.toNat)
  else if 0 ≤ v ∧ v ≤ 0xFFFF then .ok (0xcd :: beBytes 2 v.toNat)
  else if 0 ≤ v ∧ v ≤ 0xFFFFFFFF then .ok (0xce :: beBytes 4 v.toNat)
  else if 0 ≤ v ∧ v ≤ 0xFFFFFFFFFFFFFFFF then .ok (0xcf :: beBytes 8 v.toNat)
  else if -0x80 ≤ v ∧ v < 0 then .ok (0xd0 :: beBytes 1 (v + 2 ^ 8).toNat)
  else if -0x8000 ≤ v ∧ v < -0x80 then .ok (0xd1 :: beBytes 2 (v + 2 ^ 16).toNat)
  else if -0x80000000 ≤ v ∧ v < -0x8000 then
    .ok (0xd2 :: beBytes 4 (v + 2 ^ 32).toNat)
  else if -0x8000000000000000 ≤ v ∧ v < -0x80000000 then
    .ok (0xd3 :: beBytes 8 (v + 2 ^ 64).toNat)
  else .error .overflowError

/-- `msgpack_compat._encode_str` (the length is that of the UTF-8 bytes). -/
def _encode_str (s : Bytes) : Except MpPackErr Bytes :=
  if s.length ≤ 31 then .ok ((0xa0 + s.length) :: s)
  else if s.length ≤ 0xFF then .ok (0xd9 :: beBytes 1 s.length ++ s)
  else if s.length ≤ 0xFFFF then .ok (0xda :: beBytes 2 s.length ++ s)
  else if s.length ≤ 0xFFFFFFFF then .ok (0xdb :: beBytes 4 s.length ++ s)
  else .error .overflowError

/-- `msgpack_compat._encode_bin`. -/
def _encode_bin (b : Bytes) : Except MpPackErr Bytes :=
  if b.length ≤ 0xFF then .ok (0xc4 :: beBytes 1 b.length ++ b)
  else if b.length ≤ 0xFFFF then .ok (0xc5 :: beBytes 2 b.length ++ b)
  else if b.length ≤ 0xFFFFFFFF then .ok (0xc6 :: beBytes 4 b.length ++ b)
  else .error .overflowError

/-- The array header of `msgpack_compat._encode_array`. -/
def _arr_header (n : Nat) : Except MpPackErr Bytes :=
  if n ≤ 15 then .ok [0x90 + n]
  else if n ≤ 0xFFFF then .ok (0xdc :: beBytes 2 n)
  else if n ≤ 0xFFFFFFFF then .ok (0xdd :: beBytes 4 n)
  else .error .overflowError

/-- The map header of `msgpack_compat._encode_map`. -/
def _map_header (n : Nat) : Except MpPackErr Bytes :=
  if n ≤ 15 then .ok [0x80 + n]
  else if n ≤ 0xFFFF then .ok (0xde :: beBytes 2 n)
  else if n ≤ 0xFFFFFFFF then .ok (0xdf :: beBytes 4 n)
  else .error .overflowError

/-! `msgpack_compat._encode` (with `_encode_array` / `_encode_map`
inlined as the two list workers). -/
mutual
def _encode : MP → Except MpPackErr Bytes
  | .nil => .ok [0xc0]
  | .bool true => .ok [0xc3]
  | .bool false => .ok [0xc2]
  | .int v => _encode_int v
  | .float64 bits => .ok (0xcb :: beBytes 8 bits)
  | .float32 _ => .error .typeError
  | .str s => _encode_str s
  | .bin b => _encode_bin b
  | .arr xs =>
    match _encodeList xs with
    | .error e => .error e
    | .ok body =>
      match _arr_header xs.length with
      | .error e => .error e
      | .ok hd => .ok (hd ++ body)
  | .map kvs =>
    match _encodePairs kvs with
    | .error e => .error e
    | .ok body =>
      match _map_header kvs.length with
      | .error e => .error e
      | .ok hd => .ok (hd ++ body)
def _encodeList : List MP → Except MpPackErr Bytes
  | [] => .ok []
  | x :: xs =>
    match _encode x with
    | .error e => .error e
    | .ok bx =>
      match _encodeList xs with
      | .error e => .error e
      | .ok rest => .ok (bx ++ rest)
def _encodePairs : List (MP × MP) → Except MpPackErr Bytes
  | [] => .ok []
  | (k, v) :: kvs =>
    match _encode k with
    | .error e => .error e
    | .ok bk =>
      match _encode v with
      | .error e => .error e
      | .ok bv =>
        match _encodePairs kvs with
        | .error e => .error e
        | .ok rest => .ok (bk ++ bv ++ rest)
end

/-- `packb(obj, use_bin_type=True)`. -/
def packb (m : MP) : Except MpPackErr Bytes := _encode m

/-- CPython `result[key] = value`: replace the value at the first key
comparing equal (keeping the stored key object), else append. -/
def dictAssign : List (MP × MP) → MP → MP → List (MP × MP)
  | [], k, v => [(k, v)]
  | (k', v') :: rest, k, v =>
      if mpBeq k' k then (k', v) :: rest else (k', v') :: dictAssign rest k v

/-- Signed big-endian value of `w` bytes (`struct.unpack(">b/h/i/q")`). -/
def sVal (w : Nat) (bs : Bytes) : Int :=
  if beVal bs ≥ 2 ^ (8 * w - 1) then (beVal bs : Int) - 2 ^ (8 * w)
  else (beVal bs : Int)

/-- Decoding `n` consecutive values with a given element decoder
(the list comprehensions of `msgpack_compat._decode`). -/
def decodeItemsWith (dec : Bytes → Except String (MP × Bytes)) :
    Nat → Bytes → Except String (List MP × Bytes)
  | 0, bs => .ok ([], bs)
  | n + 1, bs =>
    match dec bs with
    | .error e => .error e
    | .ok (v, r) =>
      match decodeItemsWith dec n r with
      | .error e => .error e
      | .ok (vs, r2) => .ok (v :: vs, r2)

/-- `msgpack_compat._decode_map_items`: read `n` key/value pairs into a
dict (insertion order, later duplicate keys overwriting in place). -/
def decodeMapItemsWith (dec : Bytes → Except String (MP × Bytes)) :
    Nat → List (MP × MP) → Bytes → Except String (List (MP × MP) × Bytes)
  | 0, acc, bs => .ok (acc, bs)
  | n + 1, acc, bs =>
    match dec bs with
    | .error e => .error e
    | .ok (k, r1) =>
      match dec r1 with
      | .error e => .error e
      | .ok (v, r2) => decodeMapItemsWith dec n (dictAssign acc k v) r2

/-- One step of `msgpack_compat._decode` (with `raw=False`), the
recursive calls abstracted as `dec`. -/
def _decodeStep (dec : Bytes → Except String (MP × Bytes)) (bs : Bytes) :
    Except String (MP × Bytes) :=
    match bs with
    | [] => .error "MessagePack data truncated"
    | marker :: rest =>
      if marker ≤ 0x7F then .ok (.int marker, rest)
      else if 0xE0 ≤ marker then .ok (.int ((marker : Int) - 0x100), rest)
      else if 0xA0 ≤ marker ∧ marker ≤ 0xBF then
        match readN (marker - 0xA0) rest with
        | .error e => .error e
        | .ok (s, r) => .ok (.str s, r)
      else if 0x90 ≤ marker ∧ marker ≤ 0x9F then
        match decodeItemsWith dec (marker - 0x90) rest with
        | .error e => .error e
        | .ok (vs, r) => .ok (.arr vs, r)
      else if 0x80 ≤ marker ∧ marker ≤ 0x8F then
        match decodeMapItemsWith dec (marker - 0x80) [] rest with
        | .error e => .error e
        | .ok (kvs, r) => .ok (.map kvs, r)
      else if marker = 0xc0 then .ok (.nil, rest)
      else if marker = 0xc2 then .ok (.bool false, rest)
      else if marker = 0xc3 then .ok (.bool true, rest)
      else if marker = 0xc4 ∨ marker = 0xc5 ∨ marker = 0xc6 then
        let w := if marker = 0xc4 then 1 else if marker = 0xc5 then 2 else 4
        match readN w rest with
        | .error e => .error e
        | .ok (lenB, r1) =>
          match readN (beVal lenB) r1 with
          | .error e => .error e
          | .ok (dat, r2) => .ok (.bin dat, r2)
      else if marker = 0xca then
        match readN 4 rest with
        | .error e => .error e
        | .ok (dat, r) => .ok (.float32 (beVal dat), r)
      else if marker = 0xcb then
        match readN 8 rest with
        | .error e => .error e
        | .ok (dat, r) => .ok (.float64 (beVal dat), r)
      else if marker = 0xcc ∨ marker = 0xcd ∨ marker = 0xce ∨ marker = 0xcf then
        let w := if marker = 0xcc then 1 else if marker = 0xcd then 2
          else if marker = 0xce then 4 else 8
        match readN w rest with
        | .error e => .error e
        | .ok (dat, r) => .ok (.int (beVal dat), r)
      else if marker = 0xd0 ∨ marker = 0xd1 ∨ marker = 0xd2 ∨ marker = 0xd3 then
        let w := if marker = 0xd0 then 1 else if marker = 0xd1 then 2
          else if marker = 0xd2 then 4 else 8
        match readN w rest with
        | .error e => .error e
        | .ok (dat, r) => .ok (.int (sVal w dat), r)
      else if marker = 0xd9 ∨ marker = 0xda ∨ marker = 0xdb then
        let w := if marker = 0xd9 then 1 else if marker = 0xda then 2 else 4
        match readN w rest with
        | .error e => .error e
        | .ok (lenB, r1) =>
          match readN (beVal lenB) r1 with
          | .error e => .error e
          | .ok (dat, r2) => .ok (.str dat, r2)
      else if marker = 0xdc ∨ marker = 0xdd then
        let w := if marker = 0xdc then 2 else 4
        match readN w rest with
        | .error e => .error e
        | .ok (lenB, r1) =>
          match decodeItemsWith dec (beVal lenB) r1 with
          | .error e => .error e
          | .ok (vs, r2) => .ok (.arr vs, r2)
      else if marker = 0xde ∨ marker = 0xdf then
        let w := if marker = 0xde then 2 else 4
        match readN w rest with
        | .error e => .error e
        | .ok (lenB, r1) =>
          match decodeMapItemsWith dec (beVal lenB) [] r1 with
          | .error e => .error e
          | .ok (kvs, r2) => .ok (.map kvs, r2)
      else .error "unsupported MessagePack marker"

/-! Evaluation of `_decodeStep` at each concrete marker byte (all `rfl`:
the guard chain computes). -/

theorem decStep_cb (dec : Bytes → Except String (MP × Bytes)) (rest : Bytes) :
    _decodeStep dec (0xcb :: rest) =
      (match readN 8 rest with
       | .error e => .error e
       | .ok (dat, r) => .ok (.float64 (beVal dat), r)) := rfl

theorem decStep_bin (dec : Bytes → Except String (MP × Bytes)) (rest : Bytes)
    (m w : Nat)
    (hm : m = 0xc4 ∧ w = 1 ∨ m = 0xc5 ∧ w = 2 ∨ m = 0xc6 ∧ w = 4) :
    _decodeStep dec (m :: rest) =
      (match readN w rest with
       | .error e => .error e
       | .ok (lenB, r1) =>
         match readN (beVal lenB) r1 with
         | .error e => .error e
         | .ok (dat, r2) => .ok (.bin dat, r2)) := by
  rcases hm with ⟨h1, h2⟩ | ⟨h1, h2⟩ | ⟨h1, h2⟩ <;> subst h1 <;> subst h2 <;> rfl

theorem decStep_uint (dec : Bytes → Except String (MP × Bytes)) (rest : Bytes)
    (m w : Nat)
    (hm : m = 0xcc ∧ w = 1 ∨ m = 0xcd ∧ w = 2 ∨ m = 0xce ∧ w = 4 ∨
      m = 0xcf ∧ w = 8) :
    _decodeStep dec (m :: rest) =
      (match readN w rest with
       | .error e => .error e
       | .ok (dat, r) => .ok (.int (beVal dat), r)) := by
  rcases hm with ⟨h1, h2⟩ | ⟨h1, h2⟩ | ⟨h1, h2⟩ | ⟨h1, h2⟩ <;> subst h1 <;>
    subst h2 <;> rfl

theorem decStep_sint (dec : Bytes → Except String (MP × Bytes)) (rest : Bytes)
    (m w : Nat)
    (hm : m = 0xd0 ∧ w = 1 ∨ m = 0xd1 ∧ w = 2 ∨ m = 0xd2 ∧ w = 4 ∨
      m = 0xd3 ∧ w = 8) :
    _decodeStep dec (m :: rest) =
      (match readN w rest with
       | .error e => .error e
       | .ok (dat, r) => .ok (.int (sVal w dat), r)) := by
  rcases hm with ⟨h1, h2⟩ | ⟨h1, h2⟩ | ⟨h1, h2⟩ | ⟨h1, h2⟩ <;> subst h1 <;>
    subst h2 <;> rfl

theorem decStep_strlen (dec : Bytes → Except String (MP × Bytes)) (rest : Bytes)
    (m w : Nat)
    (hm : m = 0xd9 ∧ w = 1 ∨ m = 0xda ∧ w = 2 ∨ m = 0xdb ∧ w = 4) :
    _decodeStep dec (m :: rest) =
      (match readN w rest with
       | .error e => .error e
       | .ok (lenB, r1) =>
         match readN (beVal lenB) r1 with
         | .error e => .error e
         | .ok (dat, r2) => .ok (.str dat, r2)) := by
  rcases hm with ⟨h1, h2⟩ | ⟨h1, h2⟩ | ⟨h1, h2⟩ <;> subst h1 <;> subst h2 <;> rfl

theorem decStep_arrlen (dec : Bytes → Except String (MP × Bytes)) (rest : Bytes)
    (m w : Nat) (hm : m = 0xdc ∧ w = 2 ∨ m = 0xdd ∧ w = 4) :
    _decodeStep dec (m :: rest) =
      (match readN w rest with
       | .error e => .error e
       | .ok (lenB, r1) =>
         match decodeItemsWith dec (beVal lenB) r1 with
         | .error e => .error e
         | .ok (vs, r2) => .ok (.arr vs, r2)) := by
  rcases hm with ⟨h1, h2⟩ | ⟨h1, h2⟩ <;> subst h1 <;> subst h2 <;> rfl

theorem decStep_maplen (dec : Bytes → Except String (MP × Bytes)) (rest : Bytes)
    (m w : Nat) (hm : m = 0xde ∧ w = 2 ∨ m = 0xdf ∧ w = 4) :
    _decodeStep dec (m :: rest) =
      (match readN w rest with
       | .error e => .error e
       | .ok (lenB, r1) =>
         match decodeMapItemsWith dec (beVal lenB) [] r1 with
         | .error e => .error e
         | .ok (kvs, r2) => .ok (.map kvs, r2)) := by
  rcases hm with ⟨h1, h2⟩ | ⟨h1, h2⟩ <;> subst h1 <;> subst h2 <;> rfl

/-- `msgpack_compat._decode`, fuelled: the Python recursion terminates on
every finite input, and any call tree consuming `bs` makes fewer than
`|bs| + 1` nested `_decode` calls, which `unpackb` supplies. -/
def _decode : Nat → Bytes → Except String (MP × Bytes)
  | 0, _ => .error "fuel exhausted"
  | fuel + 1, bs => _decodeStep (_decode fuel) bs

/-- `unpackb(payload, raw=False)`: decode one value and require that the
whole input is consumed. -/
def unpackb (bs : Bytes) : Except String MP :=
  match _decode (bs.length + 1) bs with
  | .error e => .error e
  | .ok (v, r) => if r = [] then .ok v else .error "trailing bytes after decode"

/-! ## Control protocol (`src/bridge/messages.py`) -/

/-- The ASCII bytes of a protocol string literal (every string constant of
`messages.py` is ASCII, where the code point is the UTF-8 byte). -/
def asciiB (s : String) : Bytes := s.toList.map Char.toNat

def PROTOCOL_MAGIC : Bytes := asciiB "SUTU_BRIDGE_V2"
def PROTOCOL_VERSION : Int := 2
def DEFAULT_CAPABILITIES : List Bytes :=
  [asciiB "shm_ring", asciiB "tcp_lz4", asciiB "chunked_frame"]

def BRIDGE_TRANSPORT_SHM : Bytes := asciiB "shm"
def BRIDGE_TRANSPORT_TCP_LZ4 : Bytes := asciiB "tcp_lz4"

/-- The canonical string token of a `Transport`. -/
def Transport.token : Transport → Bytes
  | .shm => BRIDGE_TRANSPORT_SHM
  | .tcp_lz4 => BRIDGE_TRANSPORT_TCP_LZ4

def MESSAGE_TYPE_HELLO : Bytes := asciiB "hello"
def MESSAGE_TYPE_HELLO_ACK : Bytes := asciiB "hello_ack"
def MESSAGE_TYPE_START_STREAM : Bytes := asciiB "start_stream"
def MESSAGE_TYPE_STOP_STREAM : Bytes := asciiB "stop_stream"
def MESSAGE_TYPE_FRAME_META : Bytes := asciiB "frame_meta"
def MESSAGE_TYPE_ACK : Bytes := asciiB "ack"
def MESSAGE_TYPE_ERROR : Bytes := asciiB "error"
def MESSAGE_TYPE_HEARTBEAT : Bytes := asciiB "heartbeat"

/-- `_CONTROL_MESSAGE_TYPES` in declaration order; the order also defines
`_CONTROL_MESSAGE_INDEX_TO_TYPE` (index → name). -/
def _CONTROL_MESSAGE_TYPES : List Bytes :=
  [MESSAGE_TYPE_HELLO, MESSAGE_TYPE_HELLO_ACK, MESSAGE_TYPE_START_STREAM,
   MESSAGE_TYPE_STOP_STREAM, MESSAGE_TYPE_FRAME_META, MESSAGE_TYPE_ACK,
   MESSAGE_TYPE_ERROR, MESSAGE_TYPE_HEARTBEAT]

/-- `_PAYLOAD_FIELDS_BY_TYPE`: the positional field-name table. -/
def _PAYLOAD_FIELDS_BY_TYPE (t : Bytes) : Option (List Bytes) :=
  if t = MESSAGE_TYPE_HELLO then
    some [asciiB "magic", asciiB "protocolVersion", asciiB "capabilities",
          asciiB "clientName", asciiB "clientVersion"]
  else if t = MESSAGE_TYPE_HELLO_ACK then
    some [asciiB "accepted", asciiB "serverVersion", asciiB "selectedTransport",
          asciiB "reason"]
  else if t = MESSAGE_TYPE_START_STREAM then some [asciiB "streamId"]
  else if t = MESSAGE_TYPE_STOP_STREAM then some [asciiB "reason"]
  else if t = MESSAGE_TYPE_FRAME_META then
    some [asciiB "frameId", asciiB "width", asciiB "height", asciiB "stride",
          asciiB "pixelFormat", asciiB "transport", asciiB "shmSlot",
          asciiB "chunkSize", asciiB "timestampMs"]
  else if t = MESSAGE_TYPE_ACK then some [asciiB "frameId"]
  else if t = MESSAGE_TYPE_ERROR then some [asciiB "code", asciiB "message"]
  else if t = MESSAGE_TYPE_HEARTBEAT then some [asciiB "timestampMs"]
  else none

/-- A byte Python `str.strip()` removes (the ASCII whitespace code
points: tab, LF, VT, FF, CR, FS, GS, RS, US, space). -/
def pyWhitespace (b : Nat) : Bool :=
  b == 9 || b == 10 || b == 11 || b == 12 || b == 13 ||
  b == 28 || b == 29 || b == 30 || b == 31 || b == 32

/-- `str.lower()` on an ASCII byte. -/
def asciiLower (b : Nat) : Nat := if 65 ≤ b ∧ b ≤ 90 then b + 32 else b

/-- `value.strip().lower()` on ASCII text. -/
def asciiStripLower (s : Bytes) : Bytes :=
  (((s.dropWhile pyWhitespace).reverse.dropWhile pyWhitespace).reverse).map
    asciiLower

/-- `messages._type_from_compact`.  A Python `bool` passes
`isinstance(value, int)` with `int(True) = 1`, `int(False) = 0`. -/
def _type_from_compact (value : MP) : Option Bytes :=
  match value with
  | .str s =>
      let normalized := asciiStripLower s
      if normalized ∈ _CONTROL_MESSAGE_TYPES then some normalized else none
  | .int n => if 0 ≤ n then _CONTROL_MESSAGE_TYPES.get? n.toNat else none
  | .bool b => _CONTROL_MESSAGE_TYPES.get? (if b then 1 else 0)
  | _ => none

/-- `messages._normalize_transport_value`.  A Python `bool` again counts
as an int, with `True == 1` and `False == 0`. -/
def _normalize_transport_value (value : MP) : MP :=
  match value with
  | .str s =>
      if s = BRIDGE_TRANSPORT_SHM ∨ s = BRIDGE_TRANSPORT_TCP_LZ4 then .str s
      else
        let lowered := asciiStripLower s
        if lowered = asciiB "shm" ∨ lowered = asciiB "shared_memory" ∨
            lowered = asciiB "shared-memory" then .str BRIDGE_TRANSPORT_SHM
        else if lowered = asciiB "tcp_lz4" ∨ lowered = asciiB "tcp-lz4" ∨
            lowered = asciiB "tcplz4" then .str BRIDGE_TRANSPORT_TCP_LZ4
        else .str s
  | .int n =>
      if n = 0 then .str BRIDGE_TRANSPORT_SHM
      else if n = 1 then .str BRIDGE_TRANSPORT_TCP_LZ4
      else .int n
  | .bool b =>
      if b then .str BRIDGE_TRANSPORT_TCP_LZ4 else .str BRIDGE_TRANSPORT_SHM
  | v => v

/-- `key in message` for a string key on a decoded dict. -/
def dictHasStrKey (kvs : List (MP × MP)) (key : Bytes) : Bool :=
  kvs.any (fun p => mpBeq p.1 (.str key))

/-- `message.get(key)` for a string key, `None` (`.nil`) when absent. -/
def dictGetStrD (kvs : List (MP × MP)) (key : Bytes) : MP :=
  match kvs.find? (fun p => mpBeq p.1 (.str key)) with
  | some p => p.2
  | none => .nil

/-- Positional decoding of a list payload against the field-name table:
`for idx, field_name in enumerate(field_names): if idx < len(payload):
normalized[field_name] = payload[idx]`. -/
def posPairs : List Bytes → List MP → List (MP × MP)
  | f :: fs, v :: vs => (.str f, v) :: posPairs fs vs
  | _, _ => []

/-- `messages._normalize_payload`. -/
def _normalize_payload (message_type : Bytes) (payload : MP) :
    Except BridgeErr (List (MP × MP)) :=
  match payload with
  | .nil => .ok []
  | .map kvs => finish kvs
  | .arr xs =>
    match _PAYLOAD_FIELDS_BY_TYPE message_type with
    | none => .error .protoMismatch
    | some field_names => finish (posPairs field_names xs)
  | _ => .error .protoMismatch
where
  finish (normalized : List (MP × MP)) : Except BridgeErr (List (MP × MP)) :=
    if message_type = MESSAGE_TYPE_HELLO_ACK then
      .ok (dictAssign normalized (.str (asciiB "selectedTransport"))
        (_normalize_transport_value
          (dictGetStrD normalized (asciiB "selectedTransport"))))
    else if message_type = MESSAGE_TYPE_FRAME_META then
      .ok (dictAssign normalized (.str (asciiB "transport"))
        (_normalize_transport_value
          (dictGetStrD normalized (asciiB "transport"))))
    else .ok normalized

/-- The canonical `{type, payload}` mapping. -/
def mkMsg (t : Bytes) (payload : List (MP × MP)) : MP :=
  .map [(.str (asciiB "type"), .str t),
        (.str (asciiB "payload"), .map payload)]

/-- `messages._normalize_control_message`: accept the canonical
`{type, payload}` dict, the single-key `{typeName: payload}` dict and the
2-element `[typeIndexOrName, payload]` sequence, normalizing all three to
the canonical shape; everything else fails with `E_PROTO_MISMATCH`. -/
def _normalize_control_message (message : MP) : Except BridgeErr MP :=
  match message with
  | .map kvs =>
    if dictHasStrKey kvs (asciiB "type") then
      match _type_from_compact (dictGetStrD kvs (asciiB "type")) with
      | none => .error .protoMismatch
      | some message_type =>
        match _normalize_payload message_type (dictGetStrD kvs (asciiB "payload")) with
        | .error e => .error e
        | .ok payload => .ok (mkMsg message_type payload)
    else
      match kvs with
      | [(variant_key, variant_payload)] =>
        match _type_from_compact variant_key with
        | some message_type =>
          match _normalize_payload message_type variant_payload with
          | .error e => .error e
          | .ok payload => .ok (mkMsg message_type payload)
        | none => .error .protoMismatch
      | _ => .error .protoMismatch
  | .arr [tv, pv] =>
    match _type_from_compact tv with
    | some message_type =>
      match _normalize_payload message_type pv with
      | .error e => .error e
      | .ok payload => .ok (mkMsg message_type payload)
    | none => .error .protoMismatch
  | _ => .error .protoMismatch

/-- `messages.encode_control_message`: pack, wrapping codec failures as
`E_PROTO_MISMATCH`, then enforce `MAX_CONTROL_MESSAGE_BYTES`. -/
def encode_control_message (message : MP) : Except BridgeErr Bytes :=
  match packb message with
  | .error _ => .error .protoMismatch
  | .ok payload =>
    if payload.length > MAX_CONTROL_MESSAGE_BYTES then .error .msgTooLarge
    else .ok payload

/-- `messages.decode_control_message`: unpack (`E_PROTO_MISMATCH` on any
codec failure) and normalize. -/
def decode_control_message (payload : Bytes) : Except BridgeErr MP :=
  match unpackb payload with
  | .error _ => .error .protoMismatch
  | .ok message => _normalize_control_message message

def optStr : Option Bytes → MP
  | none => .nil
  | some s => .str s

def optInt : Option Int → MP
  | none => .nil
  | some n => .int n

/-- The payload dict of `messages.build_hello`; `list(capabilities or
DEFAULT_CAPABILITIES)` falls back to the default when `capabilities` is
`None` or empty (an empty Python list is falsy). -/
def hello_payload (client_name client_version : Bytes)
    (capabilities : Option (List Bytes)) : List (MP × MP) :=
  [(.str (asciiB "magic"), .str PROTOCOL_MAGIC),
   (.str (asciiB "protocolVersion"), .int PROTOCOL_VERSION),
   (.str (asciiB "capabilities"),
    .arr ((match capabilities with
           | none => DEFAULT_CAPABILITIES
           | some [] => DEFAULT_CAPABILITIES
           | some l => l).map MP.str)),
   (.str (asciiB "clientName"), .str client_name),
   (.str (asciiB "clientVersion"), .str client_version)]

/-- `messages.build_hello`. -/
def build_hello (client_name client_version : Bytes)
    (capabilities : Option (List Bytes)) : MP :=
  mkMsg MESSAGE_TYPE_HELLO (hello_payload client_name client_version capabilities)

/-- Modelled from the spec: `messages.py` defines no `build_hello_ack`
(the hello-ack is built by the peer process; only its parser
`parse_hello_ack` is in the repository).  Field table from §4.2/§6:
`accepted (bool), serverVersion, selectedTransport ("shm" | "tcp_lz4"),
reason`, built as a pure value constructor like the other builders. -/
def hello_ack_payload (accepted : Bool) (server_version : Bytes)
    (selected_transport : Transport) (reason : Option Bytes) : List (MP × MP) :=
  [(.str (asciiB "accepted"), .bool accepted),
   (.str (asciiB "serverVersion"), .str server_version),
   (.str (asciiB "selectedTransport"), .str selected_transport.token),
   (.str (asciiB "reason"), optStr reason)]

/-- Modelled from the spec: the `hello_ack` builder (see
`hello_ack_payload`). -/
def build_hello_ack (accepted : Bool) (server_version : Bytes)
    (selected_transport : Transport) (reason : Option Bytes) : MP :=
  mkMsg MESSAGE_TYPE_HELLO_ACK
    (hello_ack_payload accepted server_version selected_transport reason)

def start_stream_payload (stream_id : Option Bytes) : List (MP × MP) :=
  [(.str (asciiB "streamId"), optStr stream_id)]

/-- `messages.build_start_stream`. -/
def build_start_stream (stream_id : Option Bytes) : MP :=
  mkMsg MESSAGE_TYPE_START_STREAM (start_stream_payload stream_id)

def stop_stream_payload (reason : Option Bytes) : List (MP × MP) :=
  [(.str (asciiB "reason"), optStr reason)]

/-- `messages.build_stop_stream`. -/
def build_stop_stream (reason : Option Bytes) : MP :=
  mkMsg MESSAGE_TYPE_STOP_STREAM (stop_stream_payload reason)

/-- The payload dict of `messages.build_frame_meta` (the `int(...)`
coercions are identities on `Int`; the transport argument is one of the
two protocol tokens of §6). -/
def frame_meta_payload (frame_id width height stride : Int)
    (transport : Transport) (timestamp_ms : Int)
    (shm_slot chunk_size : Option Int) (pixel_format : Bytes) :
    List (MP × MP) :=
  [(.str (asciiB "frameId"), .int frame_id),
   (.str (asciiB "width"), .int width),
   (.str (asciiB "height"), .int height),
   (.str (asciiB "stride"), .int stride),
   (.str (asciiB "pixelFormat"), .str pixel_format),
   (.str (asciiB "transport"), .str transport.token),
   (.str (asciiB "shmSlot"), optInt shm_slot),
   (.str (asciiB "chunkSize"), optInt chunk_size),
   (.str (asciiB "timestampMs"), .int timestamp_ms)]

/-- `messages.build_frame_meta`. -/
def build_frame_meta (frame_id width height stride : Int)
    (transport : Transport) (timestamp_ms : Int)
    (shm_slot chunk_size : Option Int) (pixel_format : Bytes) : MP :=
  mkMsg MESSAGE_TYPE_FRAME_META
    (frame_meta_payload frame_id width height stride transport timestamp_ms
      shm_slot chunk_size pixel_format)

def ack_payload (frame_id : Int) : List (MP × MP) :=
  [(.str (asciiB "frameId"), .int frame_id)]

/-- `messages.build_ack`. -/
def build_ack (frame_id : Int) : MP := mkMsg MESSAGE_TYPE_ACK (ack_payload frame_id)

def error_payload (code message : Bytes) : List (MP × MP) :=
  [(.str (asciiB "code"), .str code),
   (.str (asciiB "message"), .str message)]

/-- `messages.build_error`. -/
def build_error (code message : Bytes) : MP :=
  mkMsg MESSAGE_TYPE_ERROR (error_payload code message)

def heartbeat_payload (timestamp_ms : Int) : List (MP × MP) :=
  [(.str (asciiB "timestampMs"), .int timestamp_ms)]

/-- `messages.build_heartbeat`; `timestamp_ms` is the given value (or the
`now_millis()` reading substituted for an absent argument). -/
def build_heartbeat (timestamp_ms : Int) : MP :=
  mkMsg MESSAGE_TYPE_HEARTBEAT (heartbeat_payload timestamp_ms)

/-- One call to a control-message builder, with its arguments. -/
inductive BuilderCall where
  | hello (client_name client_version : Bytes)
      (capabilities : Option (List Bytes))
  | hello_ack (accepted : Bool) (server_version : Bytes)
      (selected_transport : Transport) (reason : Option Bytes)
  | start_stream (stream_id : Option Bytes)
  | stop_stream (reason : Option Bytes)
  | frame_meta (frame_id width height stride : Int) (transport : Transport)
      (timestamp_ms : Int) (shm_slot chunk_size : Option Int)
      (pixel_format : Bytes)
  | ack (frame_id : Int)
  | error (code message : Bytes)
  | heartbeat (timestamp_ms : Int)

/-- The message a builder call constructs. -/
def BuilderCall.msg : BuilderCall → MP
  | .hello n v caps => build_hello n v caps
  | .hello_ack a sv t r => build_hello_ack a sv t r
  | .start_stream sid => build_start_stream sid
  | .stop_stream r => build_stop_stream r
  | .frame_meta fid w h st t ts slot ck pf =>
      build_frame_meta fid w h st t ts slot ck pf
  | .ack fid => build_ack fid
  | .error c m => build_error c m
  | .heartbeat ts => build_heartbeat ts

/-- The type name of the built message. -/
def BuilderCall.typeName : BuilderCall → Bytes
  | .hello .. => MESSAGE_TYPE_HELLO
  | .hello_ack .. => MESSAGE_TYPE_HELLO_ACK
  | .start_stream .. => MESSAGE_TYPE_START_STREAM
  | .stop_stream .. => MESSAGE_TYPE_STOP_STREAM
  | .frame_meta .. => MESSAGE_TYPE_FRAME_META
  | .ack .. => MESSAGE_TYPE_ACK
  | .error .. => MESSAGE_TYPE_ERROR
  | .heartbeat .. => MESSAGE_TYPE_HEARTBEAT

/-- The index of the built message's type in `_CONTROL_MESSAGE_TYPES`. -/
def BuilderCall.typeIndex : BuilderCall → Int
  | .hello .. => 0
  | .hello_ack .. => 1
  | .start_stream .. => 2
  | .stop_stream .. => 3
  | .frame_meta .. => 4
  | .ack .. => 5
  | .error .. => 6
  | .heartbeat .. => 7

/-- The payload dict of the built message. -/
def BuilderCall.payload : BuilderCall → List (MP × MP)
  | .hello n v caps => hello_payload n v caps
  | .hello_ack a sv t r => hello_ack_payload a sv t r
  | .start_stream sid => start_stream_payload sid
  | .stop_stream r => stop_stream_payload r
  | .frame_meta fid w h st t ts slot ck pf =>
      frame_meta_payload fid w h st t ts slot ck pf
  | .ack fid => ack_payload fid
  | .error c m => error_payload c m
  | .heartbeat ts => heartbeat_payload ts

/-- The single-key compact wire shape `{typeName: payload}`. -/
def BuilderCall.singleKeyForm (c : BuilderCall) : MP :=
  .map [(.str c.typeName, .map c.payload)]

/-- The 2-element sequence wire shape `[typeName, positionalPayload]`. -/
def BuilderCall.posSeqNameForm (c : BuilderCall) : MP :=
  .arr [.str c.typeName, .arr (c.payload.map Prod.snd)]

/-- The 2-element sequence wire shape `[typeIndex, positionalPayload]`. -/
def BuilderCall.posSeqIdxForm (c : BuilderCall) : MP :=
  .arr [.int c.typeIndex, .arr (c.payload.map Prod.snd)]

/-- `Except.isOk` specialised to the control-message encoder. -/
def isOkB (e : Except BridgeErr Bytes) : Bool :=
  match e with
  | .ok _ => true
  | .error _ => false

/-- The bytes of a successful encoding (`[]` on failure). -/
def okBytes (e : Except BridgeErr Bytes) : Bytes :=
  match e with
  | .ok b => b
  | .error _ => []

/-! ### MessagePack round-trip -/

/-- `∀ i < j, keys i` and `keys j` compare unequal — duplicate-free in
exactly the orientation the decoder's `dictAssign` consults. -/
def keysFresh : List MP → Bool
  | [] => true
  | k :: ks => ks.all (fun k2 => !(mpBeq k k2)) && keysFresh ks

/-! Well-formedness for the encode/decode round trip: every map has
duplicate-free keys (a Python dict cannot hold duplicates, so `packb`'s
input always satisfies this) and float bits fit their 8 bytes (true of
every `struct.pack(">d")` result). -/
mutual
def mpWf : MP → Bool
  | .arr xs => mpWfList xs
  | .map kvs => keysFresh (kvs.map Prod.fst) && mpWfPairs kvs
  | .float64 bits => decide (bits < 2 ^ 64)
  | _ => true
def mpWfList : List MP → Bool
  | [] => true
  | x :: xs => mpWf x && mpWfList xs
def mpWfPairs : List (MP × MP) → Bool
  | [] => true
  | (k, v) :: kvs => mpWf k && mpWf v && mpWfPairs kvs
end

theorem dictAssign_append (acc : List (MP × MP)) (k v : MP)
    (h : ∀ p ∈ acc, mpBeq p.1 k = false) :
    dictAssign acc k v = acc ++ [(k, v)] := by
  induction acc with
  | nil => rfl
  | cons p acc ih =>
      obtain ⟨k', v'⟩ := p
      rw [dictAssign]
      have hk : mpBeq k' k = false := h (k', v') (by simp)
      simp only [hk, Bool.false_eq_true, if_false, List.cons_append,
        List.cons.injEq, true_and]
      exact ih (fun q hq => h q (by simp [hq]))

theorem readN_beBytes (w n : Nat) (rest : Bytes) :
    readN w (beBytes w n ++ rest) = .ok (beBytes w n, rest) := by
  have := readN_append (beBytes w n) rest
  rwa [length_beBytes] at this

theorem decodeItems_encodeList (fuel : Nat)
    (IH : ∀ (v : MP) (bs rest : Bytes), _encode v = .ok bs → mpWf v = true →
      bs.length < fuel → _decode fuel (bs ++ rest) = .ok (v, rest)) :
    ∀ (xs : List MP) (body rest : Bytes), _encodeList xs = .ok body →
      mpWfList xs = true → body.length < fuel →
      decodeItemsWith (_decode fuel) xs.length (body ++ rest) = .ok (xs, rest) := by
  intro xs
  induction xs with
  | nil =>
      intro body rest henc _ _
      rw [_encodeList] at henc
      simp only [Except.ok.injEq] at henc
      subst henc
      rfl
  | cons x xs ih =>
      intro body rest henc hwf hlen
      rw [_encodeList] at henc
      cases hx : _encode x with
      | error e => rw [hx] at henc; exact absurd henc (by simp)
      | ok bx =>
        rw [hx] at henc
        cases hxs : _encodeList xs with
        | error e => rw [hxs] at henc; exact absurd henc (by simp)
        | ok bodyxs =>
          rw [hxs] at henc
          simp only [Except.ok.injEq] at henc
          subst henc
          rw [mpWfList, Bool.and_eq_true] at hwf
          simp only [List.length_append] at hlen
          have hgoal : (bx ++ bodyxs) ++ rest = bx ++ (bodyxs ++ rest) :=
            List.append_assoc bx bodyxs rest
          rw [List.length_cons, hgoal, decodeItemsWith,
            IH x bx (bodyxs ++ rest) hx hwf.1 (by omega)]
          dsimp only
          rw [ih bodyxs rest hxs hwf.2 (by omega)]

theorem decodeMapItems_encodePairs (fuel : Nat)
    (IH : ∀ (v : MP) (bs rest : Bytes), _encode v = .ok bs → mpWf v = true →
      bs.length < fuel → _decode fuel (bs ++ rest) = .ok (v, rest)) :
    ∀ (kvs : List (MP × MP)) (body rest : Bytes) (acc : List (MP × MP)),
      _encodePairs kvs = .ok body → mpWfPairs kvs = true →
      keysFresh (kvs.map Prod.fst) = true →
      (∀ p ∈ acc, ∀ q ∈ kvs, mpBeq p.1 q.1 = false) →
      body.length < fuel →
      decodeMapItemsWith (_decode fuel) kvs.length acc (body ++ rest)
        = .ok (acc ++ kvs, rest) := by
  intro kvs
  induction kvs with
  | nil =>
      intro body rest acc henc _ _ _ _
      rw [_encodePairs] at henc
      simp only [Except.ok.injEq] at henc
      subst henc
      simp [decodeMapItemsWith]
  | cons p kvs ih =>
      obtain ⟨k, v⟩ := p
      intro body rest acc henc hwf hfresh hacc hlen
      rw [_encodePairs] at henc
      cases hk : _encode k with
      | error e => rw [hk] at henc; exact absurd henc (by simp)
      | ok bk =>
        rw [hk] at henc
        cases hv : _encode v with
        | error e => rw [hv] at henc; exact absurd henc (by simp)
        | ok bv =>
          rw [hv] at henc
          cases hkvs : _encodePairs kvs with
          | error e => rw [hkvs] at henc; exact absurd henc (by simp)
          | ok bodykvs =>
            rw [hkvs] at henc
            simp only [Except.ok.injEq] at henc
            subst henc
            simp only [mpWfPairs, Bool.and_eq_true] at hwf
            obtain ⟨⟨hwk, hwv⟩, hwkvs⟩ := hwf
            simp only [List.map_cons, keysFresh, Bool.and_eq_true,
              List.all_eq_true] at hfresh
            obtain ⟨hkfresh, hfresh'⟩ := hfresh
            simp only [List.length_append] at hlen
            have hassoc : (bk ++ bv ++ bodykvs) ++ rest =
                bk ++ (bv ++ (bodykvs ++ rest)) := by
              simp [List.append_assoc]
            rw [List.length_cons, hassoc, decodeMapItemsWith,
              IH k bk (bv ++ (bodykvs ++ rest)) hk hwk (by omega)]
            dsimp only
            rw [IH v bv (bodykvs ++ rest) hv hwv (by omega)]
            dsimp only
            have hdict : dictAssign acc k v = acc ++ [(k, v)] :=
              dictAssign_append acc k v
                (fun p hp => hacc p hp (k, v) (by simp))
            rw [hdict]
            have hacc' : ∀ p ∈ acc ++ [(k, v)], ∀ q ∈ kvs,
                mpBeq p.1 q.1 = false := by
              intro p hp q hq
              rcases List.mem_append.mp hp with hp1 | hp2
              · exact hacc p hp1 q (by simp [hq])
              · have hpk : p = (k, v) := by simpa using hp2
                subst hpk
                have := hkfresh q.1 (List.mem_map_of_mem Prod.fst hq)
                simpa using this
            rw [ih bodykvs rest (acc ++ [(k, v)]) hkvs hwkvs hfresh' hacc'
              (by omega)]
            simp

set_option maxHeartbeats 2000000 in
theorem decode_encode : ∀ (fuel : Nat) (v : MP) (bs rest : Bytes),
    _encode v = .ok bs → mpWf v = true → bs.length < fuel →
    _decode fuel (bs ++ rest) = .ok (v, rest) := by
  intro fuel
  induction fuel with
  | zero => intro v bs rest _ _ h; omega
  | succ fuel ih =>
    intro v bs rest henc hwf hlen
    cases v with
    | nil =>
        simp only [_encode, Except.ok.injEq] at henc
        subst henc
        simp only [List.cons_append, List.nil_append]
        rw [_decode, _decodeStep]
        norm_num
    | bool b =>
        cases b with
        | false =>
            simp only [_encode, Except.ok.injEq] at henc
            subst henc
            simp only [List.cons_append, List.nil_append]
            rw [_decode, _decodeStep]
            norm_num
        | true =>
            simp only [_encode, Except.ok.injEq] at henc
            subst henc
            simp only [List.cons_append, List.nil_append]
            rw [_decode, _decodeStep]
            norm_num
    | float32 bits =>
        simp only [_encode] at henc
        exact absurd henc (by simp)
    | float64 bits =>
        simp only [_encode, Except.ok.injEq] at henc
        subst henc
        simp only [mpWf, decide_eq_true_eq] at hwf
        simp only [List.cons_append]
        rw [_decode, decStep_cb, readN_beBytes]
        dsimp only
        rw [beVal_beBytes 8 bits (by norm_num; omega)]
    | int n =>
        simp only [_encode] at henc
        rw [_encode_int] at henc
        split_ifs at henc with h1 h2 h3 h4 h5 h6 h7 h8 h9 h10
        · simp only [Except.ok.injEq] at henc
          subst henc
          simp only [List.cons_append, List.nil_append]
          rw [_decode, _decodeStep]
          rw [if_pos (show n.toNat ≤ 0x7F by omega)]
          simp [Int.toNat_of_nonneg h1.1]
        · simp only [Except.ok.injEq] at henc
          subst henc
          simp only [List.cons_append, List.nil_append]
          rw [_decode, _decodeStep]
          rw [if_neg (by omega), if_pos (by omega)]
          simp only [Except.ok.injEq, Prod.mk.injEq, MP.int.injEq]
          exact ⟨by omega, trivial⟩
        · simp only [Except.ok.injEq] at henc
          subst henc
          simp only [List.cons_append]
          rw [_decode, decStep_uint _ _ 0xcc 1 (by norm_num), readN_beBytes]
          dsimp only
          rw [beVal_beBytes 1 n.toNat (by norm_num; omega)]
          simp [Int.toNat_of_nonneg h3.1]
        · simp only [Except.ok.injEq] at henc
          subst henc
          simp only [List.cons_append]
          rw [_decode, decStep_uint _ _ 0xcd 2 (by norm_num), readN_beBytes]
          dsimp only
          rw [beVal_beBytes 2 n.toNat (by norm_num; omega)]
          simp [Int.toNat_of_nonneg h4.1]
        · simp only [Except.ok.injEq] at henc
          subst henc
          simp only [List.cons_append]
          rw [_decode, decStep_uint _ _ 0xce 4 (by norm_num), readN_beBytes]
          dsimp only
          rw [beVal_beBytes 4 n.toNat (by norm_num; omega)]
          simp [Int.toNat_of_nonneg h5.1]
        · simp only [Except.ok.injEq] at henc
          subst henc
          simp only [List.cons_append]
          rw [_decode, decStep_uint _ _ 0xcf 8 (by norm_num), readN_beBytes]
          dsimp only
          rw [beVal_beBytes 8 n.toNat (by norm_num; omega)]
          simp [Int.toNat_of_nonneg h6.1]
        · simp only [Except.ok.injEq] at henc
          subst henc
          simp only [List.cons_append]
          rw [_decode, decStep_sint _ _ 0xd0 1 (by norm_num), readN_beBytes]
          dsimp only
          rw [sVal]
          simp only [beVal_beBytes 1 ((n + 2 ^ 8).toNat) (by norm_num; omega)]
          rw [if_pos (by norm_num; omega)]
          simp only [Except.ok.injEq, Prod.mk.injEq, MP.int.injEq]
          exact ⟨by norm_num; omega, trivial⟩
        · simp only [Except.ok.injEq] at henc
          subst henc
          simp only [List.cons_append]
          rw [_decode, decStep_sint _ _ 0xd1 2 (by norm_num), readN_beBytes]
          dsimp only
          rw [sVal]
          simp only [beVal_beBytes 2 ((n + 2 ^ 16).toNat) (by norm_num; omega)]
          rw [if_pos (by norm_num; omega)]
          simp only [Except.ok.injEq, Prod.mk.injEq, MP.int.injEq]
          exact ⟨by norm_num; omega, trivial⟩
        · simp only [Except.ok.injEq] at henc
          subst henc
          simp only [List.cons_append]
          rw [_decode, decStep_sint _ _ 0xd2 4 (by norm_num), readN_beBytes]
          dsimp only
          rw [sVal]
          simp only [beVal_beBytes 4 ((n + 2 ^ 32).toNat) (by norm_num; omega)]
          rw [if_pos (by norm_num; omega)]
          simp only [Except.ok.injEq, Prod.mk.injEq, MP.int.injEq]
          exact ⟨by norm_num; omega, trivial⟩
        · simp only [Except.ok.injEq] at henc
          subst henc
          simp only [List.cons_append]
          rw [_decode, decStep_sint _ _ 0xd3 8 (by norm_num), readN_beBytes]
          dsimp only
          rw [sVal]
          simp only [beVal_beBytes 8 ((n + 2 ^ 64).toNat) (by norm_num; omega)]
          rw [if_pos (by norm_num; omega)]
          simp only [Except.ok.injEq, Prod.mk.injEq, MP.int.injEq]
          exact ⟨by norm_num; omega, trivial⟩
    | str s =>
        simp only [_encode] at henc
        rw [_encode_str] at henc
        split_ifs at henc with hl1 hl2 hl3
        · simp only [Except.ok.injEq] at henc
          subst henc
          simp only [List.cons_append]
          rw [_decode, _decodeStep]
          rw [if_neg (by omega), if_neg (by omega), if_pos (by omega)]
          rw [show 0xa0 + s.length - 0xA0 = s.length by omega]
          rw [readN_append s rest]
        · simp only [Except.ok.injEq] at henc
          subst henc
          simp only [List.cons_append, List.append_assoc]
          rw [_decode, decStep_strlen _ _ 0xd9 1 (by norm_num), readN_beBytes]
          dsimp only
          rw [beVal_beBytes 1 s.length (by norm_num; omega),
            readN_append s rest]
        · simp only [Except.ok.injEq] at henc
          subst henc
          simp only [List.cons_append, List.append_assoc]
          rw [_decode, decStep_strlen _ _ 0xda 2 (by norm_num), readN_beBytes]
          dsimp only
          rw [beVal_beBytes 2 s.length (by norm_num; omega),
            readN_append s rest]
        · simp only [Except.ok.injEq] at henc
          subst henc
          simp only [List.cons_append, List.append_assoc]
          rw [_decode, decStep_strlen _ _ 0xdb 4 (by norm_num), readN_beBytes]
          dsimp only
          rw [beVal_beBytes 4 s.length (by norm_num; omega),
            readN_append s rest]
    | bin b =>
        simp only [_encode] at henc
        rw [_encode_bin] at henc
        split_ifs at henc with hl1 hl2 hl3
        · simp only [Except.ok.injEq] at henc
          subst henc
          simp only [List.cons_append, List.append_assoc]
          rw [_decode, decStep_bin _ _ 0xc4 1 (by norm_num), readN_beBytes]
          dsimp only
          rw [beVal_beBytes 1 b.length (by norm_num; omega),
            readN_append b rest]
        · simp only [Except.ok.injEq] at henc
          subst henc
          simp only [List.cons_append, List.append_assoc]
          rw [_decode, decStep_bin _ _ 0xc5 2 (by norm_num), readN_beBytes]
          dsimp only
          rw [beVal_beBytes 2 b.length (by norm_num; omega),
            readN_append b rest]
        · simp only [Except.ok.injEq] at henc
          subst henc
          simp only [List.cons_append, List.append_assoc]
          rw [_decode, decStep_bin _ _ 0xc6 4 (by norm_num), readN_beBytes]
          dsimp only
          rw [beVal_beBytes 4 b.length (by norm_num; omega),
            readN_append b rest]
    | arr xs =>
        simp only [_encode] at henc
        simp only [mpWf] at hwf
        cases hbody : _encodeList xs with
        | error e => rw [hbody] at henc; exact absurd henc (by simp)
        | ok body =>
          rw [hbody] at henc
          rw [_arr_header] at henc
          split_ifs at henc with ha1 ha2 ha3
          · simp only [Except.ok.injEq] at henc
            subst henc
            simp only [List.cons_append, List.nil_append]
            rw [_decode, _decodeStep]
            rw [if_neg (by omega), if_neg (by omega), if_neg (by omega),
              if_pos (by omega)]
            rw [show 0x90 + xs.length - 0x90 = xs.length by omega]
            rw [decodeItems_encodeList fuel ih xs body rest hbody hwf
              (by simp at hlen; omega)]
          · simp only [Except.ok.injEq] at henc
            subst henc
            simp only [List.cons_append, List.append_assoc]
            rw [_decode, decStep_arrlen _ _ 0xdc 2 (by norm_num), readN_beBytes]
            dsimp only
            rw [beVal_beBytes 2 xs.length (by norm_num; omega)]
            rw [decodeItems_encodeList fuel ih xs body rest hbody hwf
              (by simp [length_beBytes] at hlen; omega)]
          · simp only [Except.ok.injEq] at henc
            subst henc
            simp only [List.cons_append, List.append_assoc]
            rw [_decode, decStep_arrlen _ _ 0xdd 4 (by norm_num), readN_beBytes]
            dsimp only
            rw [beVal_beBytes 4 xs.length (by norm_num; omega)]
            rw [decodeItems_encodeList fuel ih xs body rest hbody hwf
              (by simp [length_beBytes] at hlen; omega)]
    | map kvs =>
        simp only [_encode] at henc
        simp only [mpWf, Bool.and_eq_true] at hwf
        cases hbody : _encodePairs kvs with
        | error e => rw [hbody] at henc; exact absurd henc (by simp)
        | ok body =>
          rw [hbody] at henc
          rw [_map_header] at henc
          split_ifs at henc with ha1 ha2 ha3
          · simp only [Except.ok.injEq] at henc
            subst henc
            simp only [List.cons_append, List.nil_append]
            rw [_decode, _decodeStep]
            rw [if_neg (by omega), if_neg (by omega), if_neg (by omega),
              if_neg (by omega), if_pos (by omega)]
            rw [show 0x80 + kvs.length - 0x80 = kvs.length by omega]
            rw [decodeMapItems_encodePairs fuel ih kvs body rest [] hbody
              hwf.2 hwf.1 (by intro p hp; simp at hp)
              (by simp at hlen; omega)]
            simp
          · simp only [Except.ok.injEq] at henc
            subst henc
            simp only [List.cons_append, List.append_assoc]
            rw [_decode, decStep_maplen _ _ 0xde 2 (by norm_num), readN_beBytes]
            dsimp only
            rw [beVal_beBytes 2 kvs.length (by norm_num; omega)]
            rw [decodeMapItems_encodePairs fuel ih kvs body rest [] hbody
              hwf.2 hwf.1 (by intro p hp; simp at hp)
              (by simp [length_beBytes] at hlen; omega)]
            simp
          · simp only [Except.ok.injEq] at henc
            subst henc
            simp only [List.cons_append, List.append_assoc]
            rw [_decode, decStep_maplen _ _ 0xdf 4 (by norm_num), readN_beBytes]
            dsimp only
            rw [beVal_beBytes 4 kvs.length (by norm_num; omega)]
            rw [decodeMapItems_encodePairs fuel ih kvs body rest [] hbody
              hwf.2 hwf.1 (by intro p hp; simp at hp)
              (by simp [length_beBytes] at hlen; omega)]
            simp

theorem unpackb_packb (m : MP) (bs : Bytes) (h : packb m = .ok bs)
    (hwf : mpWf m = true) : unpackb bs = .ok m := by
  rw [unpackb]
  have hd := decode_encode (bs.length + 1) m bs [] h hwf (by omega)
  rw [List.append_nil] at hd
  rw [hd]
  simp

theorem decode_encode_control (m : MP) (hwf : mpWf m = true)
    (hok : isOkB (encode_control_message m) = true) :
    decode_control_message (okBytes (encode_control_message m)) =
      _normalize_control_message m := by
  cases hp : packb m with
  | error e =>
      have h1 : encode_control_message m = .error .protoMismatch := by
        rw [encode_control_message, hp]
      rw [h1] at hok
      exact absurd hok (by simp [isOkB])
  | ok bs =>
      by_cases hbig : bs.length > MAX_CONTROL_MESSAGE_BYTES
      · have h1 : encode_control_message m = .error .msgTooLarge := by
          rw [encode_control_message, hp]
          dsimp only
          rw [if_pos hbig]
        rw [h1] at hok
        exact absurd hok (by simp [isOkB])
      · have h1 : encode_control_message m = .ok bs := by
          rw [encode_control_message, hp]
          dsimp only
          rw [if_neg hbig]
        rw [h1, okBytes, decode_control_message, unpackb_packb m bs hp hwf]

theorem mpWfList_map_str (l : List Bytes) : mpWfList (l.map MP.str) = true := by
  induction l with
  | nil => rfl
  | cons x l ih => simp [mpWfList, mpWf, ih]

theorem mpWf_optStr (o : Option Bytes) : mpWf (optStr o) = true := by
  cases o <;> rfl

theorem mpWf_optInt (o : Option Int) : mpWf (optInt o) = true := by
  cases o <;> rfl

theorem mpWf_forms (c : BuilderCall) :
    mpWf c.msg = true ∧ mpWf c.singleKeyForm = true ∧
    mpWf c.posSeqNameForm = true ∧ mpWf c.posSeqIdxForm = true := by
  cases c with
  | hello n v caps =>
      refine ⟨?_, ?_, ?_, ?_⟩ <;>
        simp [BuilderCall.msg, BuilderCall.singleKeyForm,
          BuilderCall.posSeqNameForm, BuilderCall.posSeqIdxForm,
          BuilderCall.payload, BuilderCall.typeName, BuilderCall.typeIndex,
          build_hello, hello_payload, mkMsg, mpWf, mpWfList, mpWfPairs,
          keysFresh, mpWfList_map_str] <;> decide
  | hello_ack a sv t r =>
      refine ⟨?_, ?_, ?_, ?_⟩ <;>
        simp [BuilderCall.msg, BuilderCall.singleKeyForm,
          BuilderCall.posSeqNameForm, BuilderCall.posSeqIdxForm,
          BuilderCall.payload, BuilderCall.typeName, BuilderCall.typeIndex,
          build_hello_ack, hello_ack_payload, mkMsg, mpWf, mpWfList, mpWfPairs,
          keysFresh, mpWf_optStr] <;> decide
  | start_stream sid =>
      refine ⟨?_, ?_, ?_, ?_⟩ <;>
        simp [BuilderCall.msg, BuilderCall.singleKeyForm,
          BuilderCall.posSeqNameForm, BuilderCall.posSeqIdxForm,
          BuilderCall.payload, BuilderCall.typeName, BuilderCall.typeIndex,
          build_start_stream, start_stream_payload, mkMsg, mpWf, mpWfList,
          mpWfPairs, keysFresh, mpWf_optStr] <;> decide
  | stop_stream r =>
      refine ⟨?_, ?_, ?_, ?_⟩ <;>
        simp [BuilderCall.msg, BuilderCall.singleKeyForm,
          BuilderCall.posSeqNameForm, BuilderCall.posSeqIdxForm,
          BuilderCall.payload, BuilderCall.typeName, BuilderCall.typeIndex,
          build_stop_stream, stop_stream_payload, mkMsg, mpWf, mpWfList,
          mpWfPairs, keysFresh, mpWf_optStr] <;> decide
  | frame_meta fid w h st t ts slot ck pf =>
      refine ⟨?_, ?_, ?_, ?_⟩ <;>
        simp [BuilderCall.msg, BuilderCall.singleKeyForm,
          BuilderCall.posSeqNameForm, BuilderCall.posSeqIdxForm,
          BuilderCall.payload, BuilderCall.typeName, BuilderCall.typeIndex,
          build_frame_meta, frame_meta_payload, mkMsg, mpWf, mpWfList,
          mpWfPairs, keysFresh, mpWf_optInt] <;> decide
  | ack fid =>
      refine ⟨?_, ?_, ?_, ?_⟩ <;>
        simp [BuilderCall.msg, BuilderCall.singleKeyForm,
          BuilderCall.posSeqNameForm, BuilderCall.posSeqIdxForm,
          BuilderCall.payload, BuilderCall.typeName, BuilderCall.typeIndex,
          build_ack, ack_payload, mkMsg, mpWf, mpWfList, mpWfPairs, keysFresh] <;> decide
  | error cd msg =>
      refine ⟨?_, ?_, ?_, ?_⟩ <;>
        simp [BuilderCall.msg, BuilderCall.singleKeyForm,
          BuilderCall.posSeqNameForm, BuilderCall.posSeqIdxForm,
          BuilderCall.payload, BuilderCall.typeName, BuilderCall.typeIndex,
          build_error, error_payload, mkMsg, mpWf, mpWfList, mpWfPairs,
          keysFresh] <;> decide
  | heartbeat ts =>
      refine ⟨?_, ?_, ?_, ?_⟩ <;>
        simp [BuilderCall.msg, BuilderCall.singleKeyForm,
          BuilderCall.posSeqNameForm, BuilderCall.posSeqIdxForm,
          BuilderCall.payload, BuilderCall.typeName, BuilderCall.typeIndex,
          build_heartbeat, heartbeat_payload, mkMsg, mpWf, mpWfList,
          mpWfPairs, keysFresh] <;> decide

theorem normalize_forms (c : BuilderCall) :
    _normalize_control_message c.msg = .ok c.msg ∧
    _normalize_control_message c.singleKeyForm = .ok c.msg ∧
    _normalize_control_message c.posSeqNameForm = .ok c.msg ∧
    _normalize_control_message c.posSeqIdxForm = .ok c.msg := by
  cases c with
  | hello n v caps => exact ⟨rfl, rfl, rfl, rfl⟩
  | hello_ack a sv t r => cases t <;> exact ⟨rfl, rfl, rfl, rfl⟩
  | start_stream sid => exact ⟨rfl, rfl, rfl, rfl⟩
  | stop_stream r => exact ⟨rfl, rfl, rfl, rfl⟩
  | frame_meta fid w h st t ts slot ck pf => cases t <;> exact ⟨rfl, rfl, rfl, rfl⟩
  | ack fid => exact ⟨rfl, rfl, rfl, rfl⟩
  | error cd m => exact ⟨rfl, rfl, rfl, rfl⟩
  | heartbeat ts => exact ⟨rfl, rfl, rfl, rfl⟩

/-- C1: For every control-message builder (hello, hello_ack, start_stream,
stop_stream, frame_meta, ack, error, heartbeat) and every choice of its
arguments, whenever the encodings fit the control-message size bound,
decoding the encoding of the built message yields exactly the canonical
`{type, payload}` message the builder constructed — same type, same field
values — and the same canonical result is obtained for all three accepted
wire shapes: the canonical mapping itself, the single-key
`{typeName: payload}` mapping, and the 2-element
`[typeIndexOrName, positionalPayload]` sequence. -/
theorem C1_builder_roundtrip (c : BuilderCall)
    (h1 : isOkB (encode_control_message c.msg) = true)
    (h2 : isOkB (encode_control_message c.singleKeyForm) = true)
    (h3 : isOkB (encode_control_message c.posSeqNameForm) = true)
    (h4 : isOkB (encode_control_message c.posSeqIdxForm) = true) :
    decode_control_message (okBytes (encode_control_message c.msg)) =
        .ok c.msg ∧
    decode_control_message (okBytes (encode_control_message c.singleKeyForm)) =
        .ok c.msg ∧
    decode_control_message (okBytes (encode_control_message c.posSeqNameForm)) =
        .ok c.msg ∧
    decode_control_message (okBytes (encode_control_message c.posSeqIdxForm)) =
        .ok c.msg := by
  obtain ⟨w1, w2, w3, w4⟩ := mpWf_forms c
  obtain ⟨n1, n2, n3, n4⟩ := normalize_forms c
  exact ⟨(decode_encode_control _ w1 h1).trans n1,
         (decode_encode_control _ w2 h2).trans n2,
         (decode_encode_control _ w3 h3).trans n3,
         (decode_encode_control _ w4 h4).trans n4⟩

theorem C1_builder_roundtrip_witness :
    decode_control_message
        (okBytes (encode_control_message (BuilderCall.ack 7).msg)) =
      .ok (BuilderCall.ack 7).msg ∧
    decode_control_message
        (okBytes (encode_control_message (BuilderCall.ack 7).singleKeyForm)) =
      .ok (BuilderCall.ack 7).msg ∧
    decode_control_message
        (okBytes (encode_control_message (BuilderCall.ack 7).posSeqNameForm)) =
      .ok (BuilderCall.ack 7).msg ∧
    decode_control_message
        (okBytes (encode_control_message (BuilderCall.ack 7).posSeqIdxForm)) =
      .ok (BuilderCall.ack 7).msg :=
  C1_builder_roundtrip (BuilderCall.ack 7) rfl rfl rfl rfl

/-! ## Frame production (`src/bridge/frame_sender.py`)

`FrameSender.send_rgba_frame`, embedded as a pure state transformer.  The
ambient inputs a call reads are passed explicitly: the shared-memory
environment, the client's port and `selected_transport`, the `lz4_frame`
module (`none` when lz4 is unavailable, in which case the tcp payload is
sent uncompressed), `time.monotonic()` and `now_millis()`.  The debug
dumper and `_sync_runtime_preferences` only configure logging/auto-install
and touch none of the state below.  Exceptions abandon the functional
state, so the mutations Python retains when a later statement raises
(retirements, the frame-id bump) are not observable through an `.error`
result; the claims proved here only consult `.ok` results and the
`ValueError` raised before any mutation. -/

def DEFAULT_RING_SLOTS : Nat := 4

def RETIRED_RING_TTL_SEC : ℚ := 2

/-- `_RetiredRing`. -/
structure RetiredRing where
  ring : SharedMemoryRing
  expires_at : ℚ
  name : Nat × Nat
deriving DecidableEq, Repr

/-- The mutable state of a `FrameSender` (`frame_sender.py` lines 38-53;
`__init__` sets `_ring_slots` to `DEFAULT_RING_SLOTS` regardless of its
argument). -/
structure FrameSender where
  _ring_slots : Nat
  _frame_id : Nat
  _streaming : Bool
  _shm_ring : Option SharedMemoryRing
  _last_ring_name : Option (Nat × Nat)
  _last_ring_size : Option Nat
  _retired_rings : List RetiredRing

/-- A fresh `FrameSender()`. -/
def FrameSender.init : FrameSender :=
  { _ring_slots := DEFAULT_RING_SLOTS
    _frame_id := 0
    _streaming := false
    _shm_ring := none
    _last_ring_name := none
    _last_ring_size := none
    _retired_rings := [] }

/-- What a send emits towards the worker: queued control messages and
queued binary frame chunks. -/
inductive SendEffect where
  | control (m : MP)
  | binaryChunk (payload : Bytes) (frame_id : Nat)

/-- `FrameSender.start_stream` as it affects the embedded state: queue a
`start_stream` control message and set `_streaming`. -/
def FrameSender.start_stream (s : FrameSender) (stream_id : Option Bytes) :
    FrameSender × SendEffect :=
  ({ s with _streaming := true }, .control (build_start_stream stream_id))

/-- `pixels[:n]` for a Python int `n` (negative counts from the end,
out-of-range clamps). -/
def pySliceTo (bs : Bytes) (n : Int) : Bytes :=
  bs.take (if n < 0 then ((bs.length : Int) + n).toNat else n.toNat)

/-- `FrameSender._cleanup_retired_rings`: keep the not-yet-expired retired
rings, close (and unlink) the expired ones. -/
def cleanupRetired (env : ShmEnv) (now : ℚ) :
    List RetiredRing → ShmEnv × List RetiredRing
  | [] => (env, [])
  | r :: rest =>
    if now < r.expires_at then
      let (env', keep) := cleanupRetired env now rest
      (env', r :: keep)
    else
      let (_, env') := r.ring.close env true
      cleanupRetired env' now rest

/-- `FrameSender._retire_active_ring`: move the active ring (if any) onto
the retired list with a `RETIRED_RING_TTL_SEC` grace period and clear the
active-ring fields. -/
def FrameSender.retire_active_ring (s : FrameSender) (now : ℚ) : FrameSender :=
  match s._shm_ring with
  | none => s
  | some ring =>
      let retired_name := s._last_ring_name.getD ring.layout.name
      { s with
        _retired_rings :=
          s._retired_rings ++
            [{ ring := ring, expires_at := now + RETIRED_RING_TTL_SEC,
               name := retired_name }]
        _shm_ring := none
        _last_ring_name := none
        _last_ring_size := none }

/-- `self._shm_ring.write_next(...)` plus storing the advanced ring back
into the sender.  (`_shm_ring` is always set at this call site; Python
would raise `AttributeError` on `None`, modelled as a `RuntimeError`-class
failure.) -/
def FrameSender.ring_write_next (s : FrameSender) (env : ShmEnv)
    (payload : Bytes) (frame_id ts : Int) :
    Except PyExc (Nat × FrameSender × ShmEnv) :=
  match s._shm_ring with
  | none => .error .runtimeError
  | some ring =>
    match ring.write_next payload frame_id ts with
    | .error e => .error e
    | .ok (ring', _, slot) => .ok (slot, { s with _shm_ring := some ring' }, env)

/-- `FrameSender._write_frame_to_shm` (`frame_sender.py` lines 165-192).
`slot_size = SHM_HEADER_BYTES + required_len` is a Python int; `.toNat` is
exact for the positive sizes, and a non-positive size is rejected by
`SharedMemoryRing.__init__`'s dimension validation on both sides before
the segment name is ever consulted. -/
def FrameSender.write_frame_to_shm (s : FrameSender) (env : ShmEnv)
    (port : Nat) (now : ℚ) (payload : Bytes) (required_len : Int)
    (frame_id ts : Int) : Except PyExc (Nat × FrameSender × ShmEnv) :=
  let (env1, retired1) := cleanupRetired env now s._retired_rings
  let s1 := { s with _retired_rings := retired1 }
  let slot_size := (SHM_HEADER_BYTES + required_len).toNat
  let ring_name := default_ring_name port slot_size
  if s1._shm_ring = none ∨ s1._last_ring_name ≠ some ring_name ∨
      s1._last_ring_size ≠ some slot_size then
    let s2 := s1.retire_active_ring now
    match SharedMemoryRing.init env1 ring_name s2._ring_slots slot_size true with
    | .error e => .error e
    | .ok (ring, env2) =>
        let s3 := { s2 with
                    _shm_ring := some ring
                    _last_ring_name := some ring_name
                    _last_ring_size := some slot_size }
        s3.ring_write_next env2 payload frame_id ts
  else
    s1.ring_write_next env1 payload frame_id ts

/-- `FrameSender._compress_tcp_payload`: lz4-compress when the module is
available, otherwise fall back to the raw bytes. -/
def _compress_tcp_payload (lz4_frame : Option (Bytes → Bytes))
    (payload : Bytes) : Bytes :=
  match lz4_frame with
  | none => payload
  | some compress => compress payload

/-- `BridgeClient.enqueue_binary_chunk` (`client.py` lines 176-188): frame
the chunk with `encode_frame(payload, MAX_BINARY_FRAME_BYTES)` — which
raises `FrameError(E_MSG_TOO_LARGE, ...)` past the 128 MiB limit, the
exception propagating to the caller — then queue the framed bytes.  (The
overflow branch of `encode_frame` is unreachable below the 128 MiB limit;
it is mapped to the matching `FrameError` for totality.) -/
def enqueue_binary_chunk (payload : Bytes) (frame_id : Nat) :
    Except PyExc SendEffect :=
  match encode_frame payload MAX_BINARY_FRAME_BYTES with
  | .error .msgTooLarge => .error (.frameError "E_MSG_TOO_LARGE")
  | .error _ => .error (.frameError "E_PROTO_MISMATCH")
  | .ok _ => .ok (.binaryChunk payload frame_id)

/-- `FrameSender.send_rgba_frame` (`frame_sender.py` lines 74-163). -/
def FrameSender.send_rgba_frame (s : FrameSender) (env : ShmEnv)
    (port : Nat) (selected_transport : Option Bytes)
    (lz4_frame : Option (Bytes → Bytes)) (now : ℚ) (now_ms : Int)
    (width height : Int) (pixels : Bytes) (stride0 : Option Int)
    (timestamp_ms0 : Option Int) :
    Except PyExc (Option Int × FrameSender × ShmEnv × List SendEffect) :=
  if s._streaming = false then .ok (none, s, env, [])
  else if width ≤ 0 ∨ height ≤ 0 then .ok (none, s, env, [])
  else
    let stride := stride0.getD (width * 4)
    let required_len := stride * height
    if (pixels.length : Int) < required_len then .error .valueError
    else
      let payload := pySliceTo pixels required_len
      let ts_ms := timestamp_ms0.getD now_ms
      let frame_id := s._frame_id + 1
      let s1 := { s with _frame_id := frame_id }
      let transport := selected_transport.getD BRIDGE_TRANSPORT_TCP_LZ4
      if transport = BRIDGE_TRANSPORT_SHM then
        match s1.write_frame_to_shm env port now payload required_len
            (frame_id : Int) ts_ms with
        | .error e => .error e
        | .ok (slot, s2, env2) =>
            .ok (some (frame_id : Int), s2, env2,
                 [.control (build_frame_meta (frame_id : Int) width height
                    stride .shm ts_ms (some (slot : Int)) none
                    (asciiB "rgba8"))])
      else
        let compressed := _compress_tcp_payload lz4_frame payload
        match enqueue_binary_chunk compressed frame_id with
        | .error e => .error e
        | .ok chunkEff =>
            .ok (some (frame_id : Int), s1, env,
                 [.control (build_frame_meta (frame_id : Int) width height
                    stride .tcp_lz4 ts_ms none (some (compressed.length : Int))
                    (asciiB "rgba8")),
                  chunkEff])

theorem ring_write_next_frame_id (s : FrameSender) (env : ShmEnv)
    (payload : Bytes) (fid ts : Int) (slot : Nat) (s' : FrameSender)
    (env' : ShmEnv)
    (h : s.ring_write_next env payload fid ts = .ok (slot, s', env')) :
    s'._frame_id = s._frame_id := by
  rw [FrameSender.ring_write_next] at h
  cases hr : s._shm_ring with
  | none => rw [hr] at h; exact absurd h (by simp)
  | some ring =>
      rw [hr] at h
      dsimp only at h
      cases hw : ring.write_next payload fid ts with
      | error e => rw [hw] at h; exact absurd h (by simp)
      | ok t =>
          obtain ⟨ring', tr', slot'⟩ := t
          rw [hw] at h
          simp only [Except.ok.injEq, Prod.mk.injEq] at h
          obtain ⟨-, h2, -⟩ := h
          rw [← h2]

theorem retire_active_ring_frame_id (s : FrameSender) (now : ℚ) :
    (s.retire_active_ring now)._frame_id = s._frame_id := by
  cases hr : s._shm_ring <;> simp [FrameSender.retire_active_ring, hr]

theorem write_frame_to_shm_frame_id (s : FrameSender) (env : ShmEnv)
    (port : Nat) (now : ℚ) (payload : Bytes) (rl : Int) (fid ts : Int)
    (slot : Nat) (s' : FrameSender) (env' : ShmEnv)
    (h : s.write_frame_to_shm env port now payload rl fid ts =
      .ok (slot, s', env')) : s'._frame_id = s._frame_id := by
  rw [FrameSender.write_frame_to_shm] at h
  rcases hc : cleanupRetired env now s._retired_rings with ⟨env1, retired1⟩
  rw [hc] at h
  dsimp only at h
  split_ifs at h
  · cases hi : SharedMemoryRing.init env1
        (default_ring_name port (SHM_HEADER_BYTES + rl).toNat)
        (({ s with _retired_rings := retired1 }).retire_active_ring
          now)._ring_slots (SHM_HEADER_BYTES + rl).toNat true with
    | error e => rw [hi] at h; exact absurd h (by simp)
    | ok t =>
        obtain ⟨ring, env2⟩ := t
        rw [hi] at h
        dsimp only at h
        have h2 := ring_write_next_frame_id _ _ _ _ _ _ _ _ h
        rw [h2]
        dsimp only
        rw [retire_active_ring_frame_id]
  · have h2 := ring_write_next_frame_id _ _ _ _ _ _ _ _ h
    rw [h2]

/-- C9 (amended): `send_rgba_frame` returns no frame id — a no-op
producing no messages, no state change, no shared-memory change —
whenever streaming is not active or `width`/`height` is non-positive;
while streaming with positive dimensions it raises `ValueError` when the
pixel buffer is shorter than `stride * height` (with `stride` defaulting
to `width * 4`); every call that does return a frame id returns exactly
the previous `_frame_id` plus one and stores that id back (so ids
increase monotonically, and a fresh sender's first frame gets id 1); on
the tcp transport the call succeeds whenever the (possibly-compressed)
chunk fits the 128 MiB binary frame bound, and past that bound
`enqueue_binary_chunk`'s `FrameError(E_MSG_TOO_LARGE)` propagates out
and no id is returned. -/
theorem C9_send_rgba_frame (s : FrameSender) (env : ShmEnv) (port : Nat)
    (tr : Option Bytes) (lz : Option (Bytes → Bytes)) (now : ℚ)
    (now_ms : Int) (w h : Int) (pixels : Bytes) (stride0 ts0 : Option Int) :
    (s._streaming = false ∨ w ≤ 0 ∨ h ≤ 0 →
      s.send_rgba_frame env port tr lz now now_ms w h pixels stride0 ts0 =
        .ok (none, s, env, [])) ∧
    (s._streaming = true → 0 < w → 0 < h →
      (pixels.length : Int) < stride0.getD (w * 4) * h →
      s.send_rgba_frame env port tr lz now now_ms w h pixels stride0 ts0 =
        .error .valueError) ∧
    (∀ res s' env' effs,
      s.send_rgba_frame env port tr lz now now_ms w h pixels stride0 ts0 =
        .ok (some res, s', env', effs) →
      res = (s._frame_id : Int) + 1 ∧ s'._frame_id = s._frame_id + 1) ∧
    (s._streaming = true → 0 < w → 0 < h →
      ¬ ((pixels.length : Int) < stride0.getD (w * 4) * h) →
      tr.getD BRIDGE_TRANSPORT_TCP_LZ4 ≠ BRIDGE_TRANSPORT_SHM →
      (_compress_tcp_payload lz
          (pySliceTo pixels (stride0.getD (w * 4) * h))).length ≤
        MAX_BINARY_FRAME_BYTES →
      ∃ s' env' effs,
        s.send_rgba_frame env port tr lz now now_ms w h pixels stride0 ts0 =
          .ok (some ((s._frame_id : Int) + 1), s', env', effs) ∧
        s'._frame_id = s._frame_id + 1) ∧
    (s._streaming = true → 0 < w → 0 < h →
      ¬ ((pixels.length : Int) < stride0.getD (w * 4) * h) →
      tr.getD BRIDGE_TRANSPORT_TCP_LZ4 ≠ BRIDGE_TRANSPORT_SHM →
      MAX_BINARY_FRAME_BYTES <
        (_compress_tcp_payload lz
          (pySliceTo pixels (stride0.getD (w * 4) * h))).length →
      s.send_rgba_frame env port tr lz now now_ms w h pixels stride0 ts0 =
        .error (.frameError "E_MSG_TOO_LARGE")) := by
  refine ⟨?_, ?_, ?_, ?_, ?_⟩
  · rintro (hs | hwh | hwh)
    · simp [FrameSender.send_rgba_frame, hs]
    · by_cases hs : s._streaming = false
      · simp [FrameSender.send_rgba_frame, hs]
      · simp [FrameSender.send_rgba_frame, hs, hwh]
    · by_cases hs : s._streaming = false
      · simp [FrameSender.send_rgba_frame, hs]
      · simp [FrameSender.send_rgba_frame, hs, hwh]
  · intro hs hw hh hlen
    simp [FrameSender.send_rgba_frame, hs, not_le.mpr hw, not_le.mpr hh, hlen]
  · intro res s' env' effs heq
    by_cases hs : s._streaming = false
    · simp [FrameSender.send_rgba_frame, hs] at heq
    · by_cases hwh : w ≤ 0 ∨ h ≤ 0
      · simp [FrameSender.send_rgba_frame, hs, hwh] at heq
      · by_cases hlen : (pixels.length : Int) < stride0.getD (w * 4) * h
        · simp [FrameSender.send_rgba_frame, hs, hwh, hlen] at heq
        · by_cases htr : tr.getD BRIDGE_TRANSPORT_TCP_LZ4 = BRIDGE_TRANSPORT_SHM
          · rw [FrameSender.send_rgba_frame] at heq
            rw [if_neg (by simp [hs]), if_neg hwh] at heq
            dsimp only at heq
            rw [if_neg hlen, if_pos htr] at heq
            cases hwf : FrameSender.write_frame_to_shm
                { s with _frame_id := s._frame_id + 1 } env port now
                (pySliceTo pixels (stride0.getD (w * 4) * h))
                (stride0.getD (w * 4) * h) ((s._frame_id + 1 : Nat) : Int)
                (ts0.getD now_ms) with
            | error e => rw [hwf] at heq; exact absurd heq (by simp)
            | ok t =>
                obtain ⟨slot, s2, env2⟩ := t
                rw [hwf] at heq
                simp only [Except.ok.injEq, Prod.mk.injEq, Option.some.injEq]
                  at heq
                obtain ⟨h1, h2, -, -⟩ := heq
                have h3 := write_frame_to_shm_frame_id _ _ _ _ _ _ _ _ _ _ _ hwf
                constructor
                · rw [← h1]; push_cast; ring
                · rw [← h2, h3]
          · rw [FrameSender.send_rgba_frame] at heq
            rw [if_neg (by simp [hs]), if_neg hwh] at heq
            dsimp only at heq
            rw [if_neg hlen, if_neg htr] at heq
            cases he : enqueue_binary_chunk
                (_compress_tcp_payload lz
                  (pySliceTo pixels (stride0.getD (w * 4) * h)))
                (s._frame_id + 1) with
            | error e => rw [he] at heq; exact absurd heq (by simp)
            | ok chunkEff =>
                rw [he] at heq
                dsimp only at heq
                simp only [Except.ok.injEq, Prod.mk.injEq, Option.some.injEq]
                  at heq
                obtain ⟨h1, h2, -, -⟩ := heq
                constructor
                · rw [← h1]; push_cast; ring
                · rw [← h2]
  · intro hs hw hh hlen htr hfit
    rw [FrameSender.send_rgba_frame]
    rw [if_neg (by simp [hs]),
        if_neg (by push_neg; exact ⟨hw, hh⟩)]
    dsimp only
    rw [if_neg hlen, if_neg htr]
    have h32 : ¬ ((_compress_tcp_payload lz
        (pySliceTo pixels (stride0.getD (w * 4) * h))).length ≥ 2 ^ 32) := by
      have h2 : (2 : Nat) ^ 32 = 4294967296 := by norm_num
      simp only [MAX_BINARY_FRAME_BYTES] at hfit
      omega
    have he : enqueue_binary_chunk
        (_compress_tcp_payload lz
          (pySliceTo pixels (stride0.getD (w * 4) * h)))
        (s._frame_id + 1) =
        .ok (.binaryChunk (_compress_tcp_payload lz
          (pySliceTo pixels (stride0.getD (w * 4) * h)))
          (s._frame_id + 1)) := by
      rw [enqueue_binary_chunk, encode_frame, if_neg (not_lt.mpr hfit),
          if_neg h32]
    rw [he]
    have hc : ((s._frame_id + 1 : Nat) : Int) = (s._frame_id : Int) + 1 := by
      push_cast; ring
    exact ⟨_, _, _, by rw [hc], rfl⟩
  · intro hs hw hh hlen htr hbig
    rw [FrameSender.send_rgba_frame]
    rw [if_neg (by simp [hs]),
        if_neg (by push_neg; exact ⟨hw, hh⟩)]
    dsimp only
    rw [if_neg hlen, if_neg htr]
    have he : enqueue_binary_chunk
        (_compress_tcp_payload lz
          (pySliceTo pixels (stride0.getD (w * 4) * h)))
        (s._frame_id + 1) = .error (.frameError "E_MSG_TOO_LARGE") := by
      rw [enqueue_binary_chunk, encode_frame, if_pos hbig]
    rw [he]

theorem C9_send_rgba_frame_witness :
    (FrameSender.init.send_rgba_frame [] 0 none none 0 5 2 2
        (List.replicate 16 0) none none = .ok (none, FrameSender.init, [], [])) ∧
    ((FrameSender.init.start_stream none).1.send_rgba_frame [] 0 none none 0 5
        2 2 (List.replicate 3 0) none none = .error .valueError) ∧
    (∃ s' env' effs,
      (FrameSender.init.start_stream none).1.send_rgba_frame [] 0 none none 0 5
          2 2 (List.replicate 16 0) none none =
        .ok (some 1, s', env', effs) ∧ s'._frame_id = 1) :=
  ⟨(C9_send_rgba_frame FrameSender.init [] 0 none none 0 5 2 2
      (List.replicate 16 0) none none).1 (Or.inl rfl),
   (C9_send_rgba_frame (FrameSender.init.start_stream none).1 [] 0 none none 0
      5 2 2 (List.replicate 3 0) none none).2.1 rfl (by decide) (by decide)
      (by decide),
   by
     obtain ⟨s', env', effs, h1, h2⟩ :=
       (C9_send_rgba_frame (FrameSender.init.start_stream none).1 [] 0 none
         none 0 5 2 2 (List.replicate 16 0) none none).2.2.2.1 rfl (by decide)
         (by decide) (by decide) (by decide) (by decide)
     exact ⟨s', env', effs, by simpa using h1, by simpa using h2⟩⟩

/-- The original C9 sentence fails on the tcp path at a chunk past the
128 MiB binary frame bound: an 8192x8192 frame (default stride, a
`2 ^ 28`-byte pixel buffer) sent while streaming with lz4 unavailable
raises `FrameError(E_MSG_TOO_LARGE)` from `enqueue_binary_chunk`'s
`encode_frame` instead of returning a frame id. -/
theorem C9_counterexample :
    ((FrameSender.init.start_stream none).1.send_rgba_frame [] 0 none none 0 5
        8192 8192 (List.replicate (2 ^ 28) 0) none none =
      .error (PyExc.frameError "E_MSG_TOO_LARGE")) ∧
    ∀ (id : Int) (s' : FrameSender) (env' : ShmEnv) (effs : List SendEffect),
      (FrameSender.init.start_stream none).1.send_rgba_frame [] 0 none none 0 5
          8192 8192 (List.replicate (2 ^ 28) 0) none none ≠
        .ok (some id, s', env', effs) := by
  have hmain :
      (FrameSender.init.start_stream none).1.send_rgba_frame [] 0 none none 0 5
          8192 8192 (List.replicate (2 ^ 28) 0) none none =
        .error (PyExc.frameError "E_MSG_TOO_LARGE") := by
    rw [FrameSender.send_rgba_frame]
    rw [if_neg (by decide), if_neg (by decide)]
    dsimp only
    rw [if_neg (by
      simp only [List.length_replicate, Option.getD_none]
      norm_num)]
    rw [if_neg (by decide)]
    have he : enqueue_binary_chunk
        (_compress_tcp_payload none
          (pySliceTo (List.replicate (2 ^ 28) 0)
            ((none : Option Int).getD (8192 * 4) * 8192)))
        ((FrameSender.init.start_stream none).1._frame_id + 1) =
        .error (.frameError "E_MSG_TOO_LARGE") := by
      have hbig : MAX_BINARY_FRAME_BYTES <
          (_compress_tcp_payload none
            (pySliceTo (List.replicate (2 ^ 28) 0)
              ((none : Option Int).getD (8192 * 4) * 8192))).length := by
        simp only [_compress_tcp_payload, pySliceTo, Option.getD_none,
          List.length_take, List.length_replicate]
        norm_num [MAX_BINARY_FRAME_BYTES]
      rw [enqueue_binary_chunk, encode_frame, if_pos hbig]
    rw [he]
  exact ⟨hmain, fun id s' env' effs h => by
    rw [hmain] at h; exact Except.noConfusion h⟩
